import Mathlib

/-!
# 6lowham TAP agent: framing protocol engine

A shallow embedding of `frame.h` / `frame.c`: the ring buffer
(`slh_agent_frame_buf_*`), the frame reader (`slh_agent_read_frame`), the frame
discard (`slh_agent_drop_frame`), the frame writer (`slh_agent_write_frame`) and
the two inline writers of `frame.h`; and of one iteration of the session loop
of `main.c`.

Conventions of the embedding

* A byte (`uint8_t`) is a `Nat`; the code only compares and copies bytes.
* `uint16_t` / `uint8_t` counters are `Nat` with an explicit `% 65536` / `% 256`
  wherever the C value can wrap; `int` results are `Int`.
* The receive side of the transport (`select` + `read` on `rx_fd`) is one
  `rx_event` per call of `slh_agent_frame_buf_fetch`; the transmit side
  (`write` on `tx_fd`) is a function from the index of the call and the chunk
  passed to `write` to the pair (value returned by `write`, value of `errno`
  afterwards).
* The memory `frame` points to is a list of bytes; the reader returns the list
  of bytes it stored through `ptr`, in order.
* The TAP side of the session loop (`select`, `slh_agent_tap_read`,
  `slh_agent_tap_write`) is one `loop_event` per iteration.
-/

set_option autoImplicit false

namespace SlhAgent

/-! ## Constants of `frame.h` -/

abbrev SOH : Nat := 0x01
abbrev STX : Nat := 0x02
abbrev E_STX : Nat := 0x62
abbrev ETX : Nat := 0x03
abbrev E_ETX : Nat := 0x63
abbrev EOT : Nat := 0x04
abbrev ACK : Nat := 0x06
abbrev DLE : Nat := 0x10
abbrev E_DLE : Nat := 0x70
abbrev NAK : Nat := 0x15
abbrev SYN : Nat := 0x16
abbrev FS : Nat := 0x1c

/-- Size of the local write buffer of `slh_agent_write_frame` (`frame.c`, line 13). -/
abbrev SLH_WRITE_BUF_SZ : Nat := 256

/-! ## `errno.h` values (Linux), used by `frame.c` through `<errno.h>` -/

abbrev EAGAIN : Int := 11
abbrev EWOULDBLOCK : Int := 11
abbrev EBADMSG : Int := 74
abbrev EMSGSIZE : Int := 90

/-! ## Data model -/

/-- The struct `slh_agent_frame`: a type byte and the payload that follows it. -/
structure slh_agent_frame where
  type : Nat
  payload : List Nat
deriving DecidableEq

/-- The struct `slh_agent_frame_ctx` without the two file descriptors, whose
behaviour is supplied to the operations as transport events. -/
structure slh_agent_frame_ctx where
  buffer : List Nat
  buffer_sz : Nat
  read_ptr : Nat
  write_ptr : Nat
deriving DecidableEq

/-- What `select` and `read` on `rx_fd` do during one call of
`slh_agent_frame_buf_fetch`. -/
inductive rx_event where
  /-- Here `select` returns a negative value and leaves `errno`. -/
  | select_error (errno : Int)
  /-- Here `select` returns 0: nothing to read. -/
  | no_data
  /-- Here `select` reports data and `read` returns -1 with `errno`. -/
  | read_error (errno : Int)
  /-- Here `select` reports data and these bytes are available to `read`
  (`read` returns at most the requested count of them; none means end of file). -/
  | data (bytes : List Nat)
deriving DecidableEq

/-! ## Ring buffer -/

/-- Function `slh_agent_frame_init` with a caller-supplied or allocated buffer `buf`. -/
def slh_agent_frame_init (buf : List Nat) (buf_sz : Nat) : slh_agent_frame_ctx :=
  { buffer := buf, buffer_sz := buf_sz, read_ptr := 0, write_ptr := 0 }

/-- Function `slh_agent_frame_buf_waiting` (`frame.c`, 336-343). -/
def slh_agent_frame_buf_waiting (ctx : slh_agent_frame_ctx) : Int :=
  if ctx.read_ptr ≤ ctx.write_ptr then
    (ctx.write_ptr : Int) - ctx.read_ptr
  else
    (ctx.buffer_sz : Int) + ctx.write_ptr - ctx.read_ptr

/-- Function `slh_agent_frame_buf_readbyte` (`frame.c`, 345-351). -/
def slh_agent_frame_buf_readbyte (ctx : slh_agent_frame_ctx) (offset : Nat) : Nat :=
  ctx.buffer.getD ((ctx.read_ptr + offset) % ctx.buffer_sz) 0

/-- Function `slh_agent_frame_buf_dequeue` (`frame.c`, 353-363). -/
def slh_agent_frame_buf_dequeue (ctx : slh_agent_frame_ctx) (len : Nat) :
    slh_agent_frame_ctx :=
  let rem : Nat := (slh_agent_frame_buf_waiting ctx % 65536).toNat
  let len : Nat := if len > rem then rem else len
  { ctx with read_ptr := (ctx.read_ptr + len) % ctx.buffer_sz }

/-- The call `memcpy(&buffer[at], src, src.length)`. -/
def memcpy (buffer : List Nat) (pos : Nat) (src : List Nat) : List Nat :=
  buffer.take pos ++ src ++ buffer.drop (pos + src.length)

/-- The copy loop `while (sz)` of `slh_agent_frame_buf_fetch` (`frame.c`, 312-331).
`ptr` is what is left of the local array `buf`, `sz` the signed count.  The
result is `none` when the loop is still running after `fuel` iterations. -/
def fetch_copy : Nat → slh_agent_frame_ctx → List Nat → Int → Option slh_agent_frame_ctx
  | 0, _, _, _ => none
  | fuel + 1, ctx, ptr, sz =>
    if sz = 0 then some ctx
    else
      let len0 : Nat :=
        if ctx.read_ptr ≤ ctx.write_ptr then
          (((ctx.buffer_sz : Int) - ctx.write_ptr) % 65536).toNat
        else
          (((ctx.read_ptr : Int) - ctx.write_ptr) % 65536).toNat
      let len : Nat := if (len0 : Int) > sz then (sz % 65536).toNat else len0
      fetch_copy fuel
        { ctx with
          buffer := memcpy ctx.buffer ctx.write_ptr (ptr.take len)
          write_ptr := (ctx.write_ptr + len) % ctx.buffer_sz }
        (ptr.drop len) (sz - len)

/-- The value `buf_rem` computed at the start of `slh_agent_frame_buf_fetch`
(`frame.c`, 279-285), as the `uint16_t` it is stored in. -/
def fetch_buf_rem (ctx : slh_agent_frame_ctx) : Nat :=
  if ctx.write_ptr ≤ ctx.read_ptr then
    (((ctx.buffer_sz : Int) + ctx.read_ptr - ctx.write_ptr) % 65536).toNat
  else
    (((ctx.read_ptr : Int) - ctx.write_ptr) % 65536).toNat

/-- Function `slh_agent_frame_buf_fetch` (`frame.c`, 274-334).  The result is the
`int` returned and the context afterwards, or `none` when the copy loop does
not terminate. -/
def slh_agent_frame_buf_fetch (ctx : slh_agent_frame_ctx) (rx : rx_event) :
    Option (Int × slh_agent_frame_ctx) :=
  let buf_rem := fetch_buf_rem ctx
  if buf_rem = 0 then some ((ctx.buffer_sz : Int), ctx)
  else
    match rx with
    | .select_error errno => some (-errno, ctx)
    | .no_data => some (0, ctx)
    | .read_error errno =>
      if errno ≠ EAGAIN ∧ errno ≠ EWOULDBLOCK then some (-errno, ctx)
      else
        (fetch_copy (buf_rem + 1) ctx [] (-1)).map
          fun c => (slh_agent_frame_buf_waiting c, c)
    | .data bytes =>
      let buf := bytes.take buf_rem
      (fetch_copy (buf.length + 1) ctx buf (buf.length : Int)).map
        fun c => (slh_agent_frame_buf_waiting c, c)

/-! ## Frame reader -/

/-- The loop "Read until we see STX" of `slh_agent_read_frame` (`frame.c`, 88-95):
from `rem` and the `uint8_t offset` to their values when the loop ends. -/
def read_until_stx (ctx : slh_agent_frame_ctx) : Nat → Nat → Nat × Nat
  | 0, offset => (0, offset)
  | rem + 1, offset =>
    if slh_agent_frame_buf_readbyte ctx offset = STX then (rem + 1, offset)
    else read_until_stx ctx rem ((offset + 1) % 256)

/-- The `switch` on the byte after `DLE` (`frame.c`, 133-147); `none` is the
`default` case. -/
def unescape (byte : Nat) : Option Nat :=
  if byte = E_STX then some STX
  else if byte = E_ETX then some ETX
  else if byte = E_DLE then some DLE
  else none

/-- The loop "Following this should be our frame" of `slh_agent_read_frame`
(`frame.c`, 113-166), with its variables `max_sz`, `rem`, `offset`, `frame_sz`
and the bytes stored through `ptr` so far.  Every iteration that does not
return decrements `max_sz`. -/
def read_frame_body (ctx : slh_agent_frame_ctx) :
    Nat → Nat → Nat → Nat → List Nat → Int × slh_agent_frame_ctx × List Nat
  | max_sz, rem, offset, frame_sz, out =>
    if rem = 0 then (0, ctx, out)
    else
      let byte := slh_agent_frame_buf_readbyte ctx offset
      if byte = ETX then
        ((frame_sz : Int), slh_agent_frame_buf_dequeue ctx ((offset + 1) % 256), out)
      else if byte = STX then
        (-EBADMSG, slh_agent_frame_buf_dequeue ctx offset, out)
      else if byte = DLE then
        if rem < 2 then (0, ctx, out)
        else
          match unescape (slh_agent_frame_buf_readbyte ctx (offset + 1)) with
          | none => (-EBADMSG, slh_agent_frame_buf_dequeue ctx (offset + 2), out)
          | some b =>
            match max_sz with
            | 0 => (-EMSGSIZE, ctx, out)
            | m + 1 =>
              read_frame_body ctx m (rem - 2) ((offset + 2) % 256)
                ((frame_sz + 1) % 65536) (out ++ [b])
      else
        match max_sz with
        | 0 => (-EMSGSIZE, ctx, out)
        | m + 1 =>
          read_frame_body ctx m rem ((offset + 1) % 256)
            ((frame_sz + 1) % 65536) (out ++ [byte])

/-- Function `slh_agent_read_frame` (`frame.c`, 77-167): the `int` returned, the
context afterwards and the bytes stored into `frame`; `none` when the ingest
step does not terminate. -/
def slh_agent_read_frame (ctx : slh_agent_frame_ctx) (rx : rx_event) (max_sz : Nat) :
    Option (Int × slh_agent_frame_ctx × List Nat) :=
  match slh_agent_frame_buf_fetch ctx rx with
  | none => none
  | some (res, ctx1) =>
    let rem0 : Nat := (res % 65536).toNat
    let scan := read_until_stx ctx1 rem0 0
    let rem := scan.1
    let offset := scan.2
    let ctx2 := slh_agent_frame_buf_dequeue ctx1 offset
    if rem = 0 then
      if offset ≠ 0 then some (-EBADMSG, ctx2, [])
      else some (0, ctx2, [])
    else
      some (read_frame_body ctx2 max_sz (rem - 1) 1 0 [])

/-! ## Frame writer -/

/-- The second byte of the escape sequence of a marker (`frame.c`, 227-237). -/
def escape_code (byte : Nat) : Nat :=
  if byte = STX then E_STX
  else if byte = ETX then E_ETX
  else E_DLE

/-- The loop "Fill up the write buffer" of `slh_agent_write_frame`
(`frame.c`, 218-251): from the bytes `rptr` still to send and the content of
`buf` (its length is `buf_sz`) to the filled `buf` and the bytes left. -/
def fill_write_buf : List Nat → List Nat → List Nat × List Nat
  | [], buf => (buf, [])
  | b :: rest, buf =>
    if b = STX ∨ b = ETX ∨ b = DLE then
      if buf.length + 1 ≥ SLH_WRITE_BUF_SZ then (buf, b :: rest)
      else fill_write_buf rest (buf ++ [DLE, escape_code b])
    else
      if buf.length ≥ SLH_WRITE_BUF_SZ then (buf, b :: rest)
      else fill_write_buf rest (buf ++ [b])

/-- The outer loop `while (frame_sz)` of `slh_agent_write_frame` and the code
after it (`frame.c`, 207-271).  `log` is the list of chunks passed to `write`
so far; the result is the `int` returned and the final `log`, or `none` when
the loop is still running after `fuel` iterations. -/
def write_chunks (tx : Nat → List Nat → Int × Int) :
    Nat → List Nat → Bool → List (List Nat) → Option (Int × List (List Nat))
  | _, [], etx_sent, log =>
    if !etx_sent then
      let chunk := [ETX]
      if (tx log.length chunk).1 < 1 then some (-(tx log.length chunk).2, log ++ [chunk])
      else some (0, log ++ [chunk])
    else some (0, log)
  | 0, _ :: _, _, _ => none
  | fuel + 1, b :: rest, etx_sent, log =>
    let stx_sent := false
    let filled := fill_write_buf (b :: rest) (if !stx_sent then [STX] else [])
    let last : Bool := filled.2.isEmpty && decide (filled.1.length < SLH_WRITE_BUF_SZ)
    let chunk := if last then filled.1 ++ [ETX] else filled.1
    if (tx log.length chunk).1 < (chunk.length : Int) then
      some (-(tx log.length chunk).2, log ++ [chunk])
    else
      write_chunks tx fuel filled.2 (last || etx_sent) (log ++ [chunk])

/-- Function `slh_agent_write_frame` (`frame.c`, 196-272) on the first `frame_sz`
bytes of `frame`: the `int` returned and the chunks passed to `write`. -/
def slh_agent_write_frame (tx : Nat → List Nat → Int × Int) (frame : slh_agent_frame)
    (frame_sz : Nat) : Option (Int × List (List Nat)) :=
  write_chunks tx frame_sz ((frame.type :: frame.payload).take frame_sz) false []

/-- A transmit side on which every `write` accepts the whole chunk. -/
def tx_accept_all : Nat → List Nat → Int × Int :=
  fun _ chunk => ((chunk.length : Int), 0)

/-! ## Frame discard -/

/-- The loop of `slh_agent_drop_frame` and the code after it (`frame.c`, 173-193),
with its variables `rem` and the `uint16_t num`: the `int` returned and the
context afterwards. -/
def drop_frame_loop (ctx : slh_agent_frame_ctx) : Nat → Nat → Int × slh_agent_frame_ctx
  | 0, num => ((num : Int), { ctx with read_ptr := 0, write_ptr := 0 })
  | rem + 1, num =>
    let byte := slh_agent_frame_buf_readbyte ctx num
    let num := (num + 1) % 65536
    if byte = ETX then
      ((num : Int), slh_agent_frame_buf_dequeue ctx num)
    else if byte = STX then
      ((num : Int) - 1, slh_agent_frame_buf_dequeue ctx (((num : Int) - 1) % 65536).toNat)
    else drop_frame_loop ctx rem num

/-- Function `slh_agent_drop_frame` (`frame.c`, 169-194). -/
def slh_agent_drop_frame (ctx : slh_agent_frame_ctx) : Int × slh_agent_frame_ctx :=
  drop_frame_loop ctx (slh_agent_frame_buf_waiting ctx % 65536).toNat 0

/-! ## Inline writers of `frame.h` -/

/-- Function `slh_agent_write_frame_nopayload` (`frame.h`, 144-151). -/
def slh_agent_write_frame_nopayload (tx : Nat → List Nat → Int × Int) (type : Nat) :
    Option (Int × List (List Nat)) :=
  slh_agent_write_frame tx { type := type, payload := [] } 1

/-- Size of a device interface name (`tap.h`, line 11). -/
abbrev SLH_TAP_NAME_SZ : Nat := 16

/-- Size of a MAC address (`tap.h`, line 14). -/
abbrev SLH_TAP_MAC_SZ : Nat := 6

/-- The struct `slh_agent_tap_ctx` of `tap.h` without the receive buffer pointer:
`name` is the array `char name[16]`, `mac` the array `uint8_t mac[6]`. -/
structure slh_agent_tap_ctx where
  name : List Nat
  mac : List Nat
  mtu : Nat
  fd : Int
  ifindex : Int
  flags : Nat
deriving DecidableEq

/-- The C library function `strlen`: the number of bytes before the first NUL. -/
def strlen : List Nat → Nat
  | [] => 0
  | c :: cs => if c = 0 then 0 else strlen cs + 1

/-- The C library function `htons` on a little-endian host: the two bytes of a
`uint16_t` exchanged. -/
def htons (x : Nat) : Nat :=
  x % 256 * 256 + x / 256 % 256

/-- The C library function `htonl` on a little-endian host: the four bytes of a
`uint32_t` reversed. -/
def htonl (x : Nat) : Nat :=
  x % 256 * 16777216 + x / 256 % 256 * 65536 + x / 65536 % 256 * 256 + x / 16777216 % 256

/-- The `n` bytes an unsigned integer occupies in memory on a little-endian
host, lowest address first: what `memcpy(ptr, &v, n)` copies. -/
def object_bytes : Nat → Nat → List Nat
  | 0, _ => []
  | n + 1, v => v % 256 :: object_bytes n (v / 256)

/-- The frame built by `slh_agent_write_device_detail_frame` (`frame.h`, 164-194)
and the value of `sizeof(frame)`.  `raw` is the content of the storage of the
local union `frame` on entry. -/
def device_detail_frame (tap : slh_agent_tap_ctx) (raw : List Nat) : List Nat × Nat :=
  let ifindex : Nat := htonl (tap.ifindex % 4294967296).toNat
  let mtu : Nat := htons (tap.mtu % 65536)
  let name_len : Nat := strlen tap.name % 256
  let size : Nat := 1 + SLH_TAP_MAC_SZ + 2 + 4 + 1 + name_len
  let raw := memcpy raw 0 [SOH]
  let ptr := 1
  let raw := memcpy raw ptr (tap.mac.take SLH_TAP_MAC_SZ)
  let ptr := ptr + SLH_TAP_MAC_SZ
  let raw := memcpy raw ptr (object_bytes 2 mtu)
  let ptr := ptr + 2
  let raw := memcpy raw ptr (object_bytes 4 ifindex)
  let ptr := ptr + 4
  let raw := memcpy raw ptr [name_len]
  let ptr := ptr + 1
  let raw := memcpy raw ptr (tap.name.take name_len)
  (raw, size)

/-- Function `slh_agent_write_device_detail_frame` (`frame.h`, 161-196). -/
def slh_agent_write_device_detail_frame (tx : Nat → List Nat → Int × Int)
    (tap : slh_agent_tap_ctx) (raw : List Nat) : Option (Int × List (List Nat)) :=
  let built := device_detail_frame tap raw
  slh_agent_write_frame tx { type := built.1.headD 0, payload := built.1.tail } built.2

/-! ## Session loop of `main.c` -/

/-- What the environment does during one iteration of the loop `while (1)` of
`main` (`main.c`, 124-200). -/
structure loop_event where
  /-- The value returned by `select` (line 137). -/
  select_res : Int
  /-- The value of `FD_ISSET(tap.fd, &rfds)`. -/
  tap_ready : Bool
  /-- The value of `FD_ISSET(ctl.rx_fd, &rfds)`. -/
  ctl_ready : Bool
  /-- The value returned by `slh_agent_tap_read`. -/
  tap_len : Int
  /-- The content of `frame.header.payload` after `slh_agent_tap_read`. -/
  tap_payload : List Nat
  /-- What `select` and `read` on `ctl.rx_fd` do inside `slh_agent_read_frame`. -/
  rx : rx_event
  /-- The value returned by `slh_agent_tap_write`. -/
  tap_write_res : Int
  /-- What `write` on `ctl.tx_fd` does. -/
  tx : Nat → List Nat → Int × Int

/-- The variables of `main` that live across iterations: the control context
and the flag `pending`. -/
structure loop_state where
  ctl : slh_agent_frame_ctx
  pending : Bool
deriving DecidableEq

/-- The effect of one iteration: the state afterwards, whether the loop goes on
(`false` after `break`), the chunks passed to `write` on the control transport
and the Ethernet frame passed to `slh_agent_tap_write`, if any. -/
structure loop_outcome where
  state : loop_state
  running : Bool
  ctl_written : List (List Nat)
  tap_written : Option (List Nat)
deriving DecidableEq

/-- One iteration of the loop `while (1)` of `main` (`main.c`, 124-200) for a
TAP device of MTU `mtu`; `none` when a callee does not return. -/
def main_loop_step (mtu : Nat) (s : loop_state) (e : loop_event) : Option loop_outcome :=
  if e.select_res < 0 then
    some { state := s, running := false, ctl_written := [], tap_written := none }
  else if e.select_res > 0 then
    if e.tap_ready then
      let len := e.tap_len
      if len < 0 then
        if len = -EMSGSIZE then
          some { state := s, running := true, ctl_written := [], tap_written := none }
        else
          some { state := s, running := false, ctl_written := [], tap_written := none }
      else if s.pending then
        some { state := s, running := true, ctl_written := [], tap_written := none }
      else
        match slh_agent_write_frame e.tx { type := FS, payload := e.tap_payload }
            ((len + 1) % 65536).toNat with
        | none => none
        | some (res, log) =>
          some { state := { s with pending := if res = 0 then true else s.pending },
                 running := true, ctl_written := log, tap_written := none }
    else if e.ctl_ready then
      match slh_agent_read_frame s.ctl e.rx ((mtu + 1) % 65536) with
      | none => none
      | some (len, ctl, out) =>
        if len = -EBADMSG then
          some { state := { s with ctl := (slh_agent_drop_frame ctl).2 },
                 running := true, ctl_written := [], tap_written := none }
        else if len > 0 then
          let type := out.headD 0
          if type = EOT then
            some { state := { s with ctl := ctl }, running := false,
                   ctl_written := [], tap_written := none }
          else if type = FS then
            let sent := out.tail.take ((len - 1) % 65536).toNat
            match slh_agent_write_frame_nopayload e.tx
                (if e.tap_write_res < 0 then NAK else ACK) with
            | none => none
            | some (_, log) =>
              some { state := { s with ctl := ctl }, running := true,
                     ctl_written := log, tap_written := some sent }
          else if type = SYN then
            match slh_agent_write_frame_nopayload e.tx ACK with
            | none => none
            | some (_, log) =>
              some { state := { s with ctl := ctl }, running := true,
                     ctl_written := log, tap_written := none }
          else if type = ACK ∨ type = NAK then
            some { state := { ctl := ctl, pending := false }, running := true,
                   ctl_written := [], tap_written := none }
          else
            match slh_agent_write_frame_nopayload e.tx NAK with
            | none => none
            | some (_, log) =>
              some { state := { s with ctl := ctl }, running := true,
                     ctl_written := log, tap_written := none }
        else
          some { state := { s with ctl := ctl }, running := true,
                 ctl_written := [], tap_written := none }
    else
      some { state := s, running := true, ctl_written := [], tap_written := none }
  else
    some { state := s, running := true, ctl_written := [], tap_written := none }


/-- The state of `main` on entry to the loop `while (1)` (`main.c`, 19-124): the
control context as `slh_agent_frame_init` leaves it for the 4096-byte buffer
`buf` it allocated (lines 89-91).  `pending` is declared without an initialiser
(line 24) and is not assigned before the loop, so it holds an indeterminate
value, `pending0`. -/
def main_loop_entry (buf : List Nat) (pending0 : Bool) : loop_state :=
  { ctl := slh_agent_frame_init buf 4096, pending := pending0 }


/-- Where the end marker goes, given the data chunks in order: into the last
data chunk when that chunk has fewer than `SLH_WRITE_BUF_SZ` bytes, otherwise
(also when there is no data chunk) into a chunk of its own. -/
def with_end_marker (chunks : List (List Nat)) : List (List Nat) :=
  match chunks.getLast? with
  | some d =>
    if d.length < SLH_WRITE_BUF_SZ then chunks.dropLast ++ [d ++ [ETX]]
    else chunks ++ [[ETX]]
  | none => [[ETX]]


/-! ## Wire format and ring-buffer views used to state the properties -/

/-- The escaped encoding of a byte sequence, from the protocol definition of
`frame.h` (lines 16-22) and the constants `E_STX`, `E_ETX`, `E_DLE`. -/
def escape_bytes : List Nat → List Nat
  | [] => []
  | b :: bs =>
    if b = STX ∨ b = ETX ∨ b = DLE then DLE :: escape_code b :: escape_bytes bs
    else b :: escape_bytes bs

/-- A well-formed wire frame: start marker, escaped type and payload, end marker. -/
def wire_frame (type : Nat) (payload : List Nat) : List Nat :=
  STX :: (escape_bytes (type :: payload) ++ [ETX])

/-- The number of bytes waiting, as a natural number. -/
def occupied (ctx : slh_agent_frame_ctx) : Nat :=
  (slh_agent_frame_buf_waiting ctx).toNat

/-- The unread content: the waiting bytes in the order `slh_agent_frame_buf_readbyte`
returns them at offsets `0 .. occupied - 1`. -/
def unread (ctx : slh_agent_frame_ctx) : List Nat :=
  (List.range (occupied ctx)).map (slh_agent_frame_buf_readbyte ctx)

/-- The fields of a context are `uint16_t` values and both cursors index the buffer. -/
def ring_ok (ctx : slh_agent_frame_ctx) : Prop :=
  0 < ctx.buffer_sz ∧ ctx.buffer_sz < 65536 ∧
    ctx.read_ptr < ctx.buffer_sz ∧ ctx.write_ptr < ctx.buffer_sz

/-- The bytes `bs` are what `slh_agent_frame_buf_readbyte` returns from `offset` on. -/
def reads_at (ctx : slh_agent_frame_ctx) : Nat → List Nat → Prop
  | _, [] => True
  | offset, b :: bs =>
    slh_agent_frame_buf_readbyte ctx offset = b ∧ reads_at ctx (offset + 1) bs

/-- The big-endian encoding of `v` in `n` bytes, most significant byte first. -/
def big_endian : Nat → Nat → List Nat
  | 0, _ => []
  | n + 1, v => big_endian n (v / 256) ++ [v % 256]


/-! ## Ring-buffer lemmas -/

theorem reads_at_append (ctx : slh_agent_frame_ctx) (xs ys : List Nat) (offset : Nat) :
    reads_at ctx offset (xs ++ ys) ↔
      reads_at ctx offset xs ∧ reads_at ctx (offset + xs.length) ys := by
  induction xs generalizing offset with
  | nil => simp [reads_at]
  | cons x xs ih =>
    have e : offset + (xs.length + 1) = offset + 1 + xs.length := by omega
    rw [List.cons_append, List.length_cons]
    simp only [reads_at, ih, and_assoc, e]

theorem reads_at_map_range (ctx : slh_agent_frame_ctx) (n offset : Nat) :
    reads_at ctx offset ((List.range' offset n).map (slh_agent_frame_buf_readbyte ctx)) := by
  induction n generalizing offset with
  | zero => simp [reads_at]
  | succ n ih =>
    simp only [List.range'_succ, List.map_cons, reads_at, true_and]
    exact ih (offset + 1)

theorem reads_at_unread (ctx : slh_agent_frame_ctx) : reads_at ctx 0 (unread ctx) := by
  unfold unread
  rw [List.range_eq_range']
  exact reads_at_map_range ctx _ 0

theorem length_unread (ctx : slh_agent_frame_ctx) : (unread ctx).length = occupied ctx := by
  simp [unread]

theorem waiting_of_ring_ok (ctx : slh_agent_frame_ctx) (h : ring_ok ctx) :
    slh_agent_frame_buf_waiting ctx = (occupied ctx : Int) ∧ occupied ctx < ctx.buffer_sz := by
  obtain ⟨h0, h1, hr, hw⟩ := h
  unfold occupied slh_agent_frame_buf_waiting
  split <;> constructor <;> omega

theorem dequeue_eq (ctx : slh_agent_frame_ctx) (h : ring_ok ctx) (len : Nat)
    (hlen : len ≤ occupied ctx) :
    slh_agent_frame_buf_dequeue ctx len =
      { ctx with read_ptr := (ctx.read_ptr + len) % ctx.buffer_sz } := by
  obtain ⟨hw, hlt⟩ := waiting_of_ring_ok ctx h
  obtain ⟨h0, h1, hr, hw'⟩ := h
  unfold slh_agent_frame_buf_dequeue
  rw [hw]
  have : ((occupied ctx : Int) % 65536).toNat = occupied ctx := by omega
  simp only [this]
  rw [if_neg (by omega)]

theorem ring_ok_dequeue (ctx : slh_agent_frame_ctx) (h : ring_ok ctx) (len : Nat) :
    ring_ok (slh_agent_frame_buf_dequeue ctx len) := by
  obtain ⟨h0, h1, hr, hw⟩ := h
  unfold slh_agent_frame_buf_dequeue
  exact ⟨h0, h1, Nat.mod_lt _ h0, hw⟩

theorem readbyte_dequeue (ctx : slh_agent_frame_ctx) (h : ring_ok ctx) (len offset : Nat)
    (hlen : len ≤ occupied ctx) :
    slh_agent_frame_buf_readbyte (slh_agent_frame_buf_dequeue ctx len) offset =
      slh_agent_frame_buf_readbyte ctx (len + offset) := by
  rw [dequeue_eq ctx h len hlen]
  unfold slh_agent_frame_buf_readbyte
  simp only [Nat.mod_add_mod]
  rw [Nat.add_assoc]

theorem reads_at_dequeue (ctx : slh_agent_frame_ctx) (h : ring_ok ctx) (len : Nat)
    (hlen : len ≤ occupied ctx) (bs : List Nat) (offset : Nat) :
    reads_at (slh_agent_frame_buf_dequeue ctx len) offset bs ↔
      reads_at ctx (len + offset) bs := by
  induction bs generalizing offset with
  | nil => simp [reads_at]
  | cons b bs ih =>
    simp only [reads_at, readbyte_dequeue ctx h len offset hlen, ih]
    rw [Nat.add_assoc]

theorem occupied_dequeue (ctx : slh_agent_frame_ctx) (h : ring_ok ctx) (len : Nat)
    (hlen : len ≤ occupied ctx) :
    occupied (slh_agent_frame_buf_dequeue ctx len) = occupied ctx - len := by
  obtain ⟨hw, hlt⟩ := waiting_of_ring_ok ctx h
  rw [dequeue_eq ctx h len hlen]
  obtain ⟨h0, h1, hr, hw'⟩ := h
  have hcase : (ctx.read_ptr + len) % ctx.buffer_sz = ctx.read_ptr + len ∨
      (ctx.read_ptr + len) % ctx.buffer_sz + ctx.buffer_sz = ctx.read_ptr + len := by
    by_cases hc : ctx.read_ptr + len < ctx.buffer_sz
    · left; exact Nat.mod_eq_of_lt hc
    · right
      have h2 : ctx.read_ptr + len - ctx.buffer_sz < ctx.buffer_sz := by omega
      rw [Nat.mod_eq_sub_mod (by omega), Nat.mod_eq_of_lt h2]
      omega
  have hm := Nat.mod_lt (ctx.read_ptr + len) h0
  revert hlen hlt hcase hm
  unfold occupied slh_agent_frame_buf_waiting
  simp only
  generalize (ctx.read_ptr + len) % ctx.buffer_sz = r'
  intro hlen hlt hcase hm
  split at hlen <;> split <;> omega

theorem unread_dequeue (ctx : slh_agent_frame_ctx) (h : ring_ok ctx) (len : Nat)
    (hlen : len ≤ occupied ctx) :
    unread (slh_agent_frame_buf_dequeue ctx len) = (unread ctx).drop len := by
  apply List.ext_getElem
  · simp [length_unread, occupied_dequeue ctx h len hlen]
  · intro i h1 h2
    simp [unread, readbyte_dequeue ctx h len i hlen]


/-! ## Frame reader lemmas -/

theorem read_until_stx_found (ctx : slh_agent_frame_ctx) (rem offset : Nat)
    (hrem : 0 < rem) (h : slh_agent_frame_buf_readbyte ctx offset = STX) :
    read_until_stx ctx rem offset = (rem, offset) := by
  cases rem with
  | zero => omega
  | succ k => simp [read_until_stx, h]

theorem read_until_stx_skip (ctx : slh_agent_frame_ctx) (garbage : List Nat) :
    ∀ (rem offset : Nat), (∀ b ∈ garbage, b ≠ STX) → reads_at ctx offset garbage →
      offset + garbage.length ≤ 255 → garbage.length ≤ rem →
      read_until_stx ctx rem offset =
        read_until_stx ctx (rem - garbage.length) (offset + garbage.length) := by
  induction garbage with
  | nil => intro rem offset _ _ _ _; simp
  | cons g gs ih =>
    intro rem offset hg hr hoff hrem
    simp only [List.length_cons] at hoff hrem
    obtain ⟨hb, hr'⟩ := hr
    cases rem with
    | zero => omega
    | succ k =>
      have hne : slh_agent_frame_buf_readbyte ctx offset ≠ STX := by
        rw [hb]; exact hg g (List.mem_cons_self g gs)
      have hmod : (offset + 1) % 256 = offset + 1 := Nat.mod_eq_of_lt (by omega)
      rw [read_until_stx, if_neg hne, hmod,
        ih k (offset + 1) (fun b hb' => hg b (List.mem_cons_of_mem g hb')) hr' (by omega)
          (by omega)]
      simp only [List.length_cons]
      congr 1 <;> omega

theorem read_frame_body_etx (ctx : slh_agent_frame_ctx) (max_sz rem offset frame_sz : Nat)
    (out : List Nat) (hrem : 0 < rem) (h : slh_agent_frame_buf_readbyte ctx offset = ETX) :
    read_frame_body ctx max_sz rem offset frame_sz out =
      ((frame_sz : Int), slh_agent_frame_buf_dequeue ctx ((offset + 1) % 256), out) := by
  have h0 : rem ≠ 0 := by omega
  cases max_sz <;> simp [read_frame_body, h0, h]

theorem read_frame_body_plain (ctx : slh_agent_frame_ctx) (m rem offset frame_sz : Nat)
    (out : List Nat) (hrem : 0 < rem)
    (h1 : slh_agent_frame_buf_readbyte ctx offset ≠ ETX)
    (h2 : slh_agent_frame_buf_readbyte ctx offset ≠ STX)
    (h3 : slh_agent_frame_buf_readbyte ctx offset ≠ DLE) :
    read_frame_body ctx (m + 1) rem offset frame_sz out =
      read_frame_body ctx m rem ((offset + 1) % 256) ((frame_sz + 1) % 65536)
        (out ++ [slh_agent_frame_buf_readbyte ctx offset]) := by
  have h0 : rem ≠ 0 := by omega
  rw [read_frame_body]
  simp only [h0, h1, h2, h3, if_false]

theorem read_frame_body_escape (ctx : slh_agent_frame_ctx) (m rem offset frame_sz b : Nat)
    (out : List Nat) (hrem : 2 ≤ rem)
    (h : slh_agent_frame_buf_readbyte ctx offset = DLE)
    (hb : unescape (slh_agent_frame_buf_readbyte ctx (offset + 1)) = some b) :
    read_frame_body ctx (m + 1) rem offset frame_sz out =
      read_frame_body ctx m (rem - 2) ((offset + 2) % 256) ((frame_sz + 1) % 65536)
        (out ++ [b]) := by
  have h0 : rem ≠ 0 := by omega
  have h2 : ¬ rem < 2 := by omega
  rw [read_frame_body]
  simp only [h0, h, h2, hb, if_false]
  simp

theorem unescape_escape_code (b : Nat) (h : b = STX ∨ b = ETX ∨ b = DLE) :
    unescape (escape_code b) = some b := by
  rcases h with h | h | h <;> subst h <;> decide

theorem read_frame_body_escaped (ctx : slh_agent_frame_ctx) (bytes : List Nat) :
    ∀ (max_sz rem offset frame_sz : Nat) (out : List Nat),
      reads_at ctx offset (escape_bytes bytes ++ [ETX]) →
      offset + (escape_bytes bytes).length ≤ 254 →
      (escape_bytes bytes).length < rem →
      bytes.length ≤ max_sz →
      frame_sz + bytes.length < 65536 →
      read_frame_body ctx max_sz rem offset frame_sz out =
        (((frame_sz + bytes.length : Nat) : Int),
          slh_agent_frame_buf_dequeue ctx (offset + (escape_bytes bytes).length + 1),
          out ++ bytes) := by
  induction bytes with
  | nil =>
    intro max_sz rem offset frame_sz out hr hoff hrem _ _
    simp only [escape_bytes, List.nil_append, reads_at, and_true, List.length_nil,
      Nat.add_zero] at hr hoff hrem ⊢
    rw [read_frame_body_etx ctx max_sz rem offset frame_sz out hrem hr,
      Nat.mod_eq_of_lt (by omega)]
    simp
  | cons b bs ih =>
    intro max_sz rem offset frame_sz out hr hoff hrem hmax hfs
    simp only [List.length_cons] at hmax hfs
    obtain ⟨m, rfl⟩ : ∃ m, max_sz = m + 1 := ⟨max_sz - 1, by omega⟩
    by_cases hm : b = STX ∨ b = ETX ∨ b = DLE
    · simp only [escape_bytes, if_pos hm, List.cons_append, reads_at, List.length_cons]
        at hr hoff hrem ⊢
      obtain ⟨hd, hc, hr'⟩ := hr
      rw [read_frame_body_escape ctx m rem offset frame_sz b out (by omega) hd
          (by rw [hc]; exact unescape_escape_code b hm),
        Nat.mod_eq_of_lt (by omega), Nat.mod_eq_of_lt (by omega),
        ih m (rem - 2) (offset + 2) (frame_sz + 1) (out ++ [b]) hr' (by omega) (by omega)
          (by omega) (by omega)]
      simp only [List.append_assoc, List.singleton_append]
      refine Prod.ext ?_ (Prod.ext ?_ rfl)
      · simp only; push_cast; ring
      · simp only; congr 1; omega
    · simp only [escape_bytes, if_neg hm, List.cons_append, reads_at, List.length_cons]
        at hr hoff hrem ⊢
      obtain ⟨hd, hr'⟩ := hr
      have hm' : b ≠ STX ∧ b ≠ ETX ∧ b ≠ DLE := by
        refine ⟨fun h => hm (Or.inl h), fun h => hm (Or.inr (Or.inl h)),
          fun h => hm (Or.inr (Or.inr h))⟩
      rw [read_frame_body_plain ctx m rem offset frame_sz out (by omega)
          (by rw [hd]; exact hm'.2.1) (by rw [hd]; exact hm'.1) (by rw [hd]; exact hm'.2.2),
        Nat.mod_eq_of_lt (by omega), Nat.mod_eq_of_lt (by omega), hd,
        ih m rem (offset + 1) (frame_sz + 1) (out ++ [b]) hr' (by omega) (by omega)
          (by omega) (by omega)]
      simp only [List.append_assoc, List.singleton_append]
      refine Prod.ext ?_ (Prod.ext ?_ rfl)
      · simp only; push_cast; ring
      · simp only; congr 1; omega


theorem length_le_escape_bytes (bytes : List Nat) :
    bytes.length ≤ (escape_bytes bytes).length := by
  induction bytes with
  | nil => simp [escape_bytes]
  | cons b bs ih =>
    by_cases hm : b = STX ∨ b = ETX ∨ b = DLE
    · simp only [escape_bytes, if_pos hm, List.length_cons]; omega
    · simp only [escape_bytes, if_neg hm, List.length_cons]; omega

theorem length_wire_frame (type : Nat) (payload : List Nat) :
    (wire_frame type payload).length = (escape_bytes (type :: payload)).length + 2 := by
  simp [wire_frame]

/-- The scan of `slh_agent_read_frame` after the ingest step, on a buffer whose
unread content is garbage without a start marker, then a well-formed wire
frame, then `rest`. -/
theorem read_frame_garbage_then_frame (ctx ctx1 : slh_agent_frame_ctx) (rx : rx_event)
    (max_sz : Nat) (garbage : List Nat) (type : Nat) (payload rest : List Nat)
    (hfetch : slh_agent_frame_buf_fetch ctx rx =
      some (slh_agent_frame_buf_waiting ctx1, ctx1))
    (hok : ring_ok ctx1)
    (hcontent : unread ctx1 = garbage ++ wire_frame type payload ++ rest)
    (hg : ∀ b ∈ garbage, b ≠ STX)
    (hglen : garbage.length ≤ 255)
    (hwlen : (wire_frame type payload).length ≤ 255)
    (hmax : 1 + payload.length ≤ max_sz) :
    ∃ ctx2, slh_agent_read_frame ctx rx max_sz =
        some (((1 + payload.length : Nat) : Int), ctx2, type :: payload) ∧
      unread ctx2 = rest ∧ ctx2.write_ptr = ctx1.write_ptr ∧ ctx2.buffer = ctx1.buffer ∧
      ctx2.buffer_sz = ctx1.buffer_sz := by
  obtain ⟨hw, hlt⟩ := waiting_of_ring_ok ctx1 hok
  have hN : ctx1.buffer_sz < 65536 := hok.2.1
  have hlen := length_unread ctx1
  rw [hcontent] at hlen
  simp only [List.length_append] at hlen
  have hW := length_wire_frame type payload
  have hE := length_le_escape_bytes (type :: payload)
  simp only [List.length_cons] at hE
  have hreads := reads_at_unread ctx1
  rw [hcontent, List.append_assoc, reads_at_append] at hreads
  obtain ⟨hrg, hrw⟩ := hreads
  rw [Nat.zero_add, reads_at_append] at hrw
  obtain ⟨hrw, _⟩ := hrw
  simp only [wire_frame, reads_at] at hrw
  obtain ⟨hstx, hbody⟩ := hrw
  have hrem0 : (slh_agent_frame_buf_waiting ctx1 % 65536).toNat = occupied ctx1 := by
    rw [hw]; omega
  have hscan : read_until_stx ctx1 (occupied ctx1) 0 =
      (occupied ctx1 - garbage.length, garbage.length) := by
    rw [read_until_stx_skip ctx1 garbage (occupied ctx1) 0 hg hrg (by omega) (by omega),
      Nat.zero_add]
    exact read_until_stx_found ctx1 _ _ (by omega) hstx
  have hgo : garbage.length ≤ occupied ctx1 := by omega
  have hok2 := ring_ok_dequeue ctx1 hok garbage.length
  have hbody2 : reads_at (slh_agent_frame_buf_dequeue ctx1 garbage.length) 1
      (escape_bytes (type :: payload) ++ [ETX]) :=
    (reads_at_dequeue ctx1 hok garbage.length hgo _ 1).mpr hbody
  have hparse := read_frame_body_escaped (slh_agent_frame_buf_dequeue ctx1 garbage.length)
    (type :: payload) max_sz (occupied ctx1 - garbage.length - 1) 1 0 [] hbody2 (by omega)
    (by omega) (by simp only [List.length_cons]; omega) (by simp only [List.length_cons]; omega)
  have hocc2 := occupied_dequeue ctx1 hok garbage.length hgo
  have hdeq2 : 1 + (escape_bytes (type :: payload)).length + 1 ≤
      occupied (slh_agent_frame_buf_dequeue ctx1 garbage.length) := by omega
  refine ⟨slh_agent_frame_buf_dequeue (slh_agent_frame_buf_dequeue ctx1 garbage.length)
    (1 + (escape_bytes (type :: payload)).length + 1), ?_, ?_, ?_, ?_, ?_⟩
  · unfold slh_agent_read_frame
    simp only [hfetch, hrem0, hscan]
    rw [if_neg (by omega), hparse]
    simp only [List.nil_append, Nat.zero_add, List.length_cons]
    congr 3
    omega
  · have hWeq : 1 + (escape_bytes (type :: payload)).length + 1 =
        (wire_frame type payload).length := by omega
    rw [unread_dequeue _ hok2 _ hdeq2, unread_dequeue ctx1 hok _ hgo, hcontent,
      List.append_assoc, List.drop_left, hWeq, List.drop_left]
  · simp [slh_agent_frame_buf_dequeue]
  · simp [slh_agent_frame_buf_dequeue]
  · simp [slh_agent_frame_buf_dequeue]


theorem read_frame_body_stx (ctx : slh_agent_frame_ctx) (max_sz rem offset frame_sz : Nat)
    (out : List Nat) (hrem : 0 < rem) (h : slh_agent_frame_buf_readbyte ctx offset = STX) :
    read_frame_body ctx max_sz rem offset frame_sz out =
      (-EBADMSG, slh_agent_frame_buf_dequeue ctx offset, out) := by
  have h0 : rem ≠ 0 := by omega
  cases max_sz <;> simp [read_frame_body, h0, h]

theorem read_frame_body_full (ctx : slh_agent_frame_ctx) (rem offset frame_sz : Nat)
    (out : List Nat) (hrem : 0 < rem)
    (h1 : slh_agent_frame_buf_readbyte ctx offset ≠ ETX)
    (h2 : slh_agent_frame_buf_readbyte ctx offset ≠ STX)
    (h3 : slh_agent_frame_buf_readbyte ctx offset ≠ DLE) :
    read_frame_body ctx 0 rem offset frame_sz out = (-EMSGSIZE, ctx, out) := by
  have h0 : rem ≠ 0 := by omega
  rw [read_frame_body]
  simp only [h0, h1, h2, h3, if_false]

/-- A run of ordinary bytes: `rem` is not decremented, `offset` advances modulo 256. -/
theorem read_frame_body_plain_run (ctx : slh_agent_frame_ctx) (bytes : List Nat) :
    ∀ (m rem offset frame_sz : Nat) (out : List Nat), 0 < rem →
      (∀ b ∈ bytes, b ≠ ETX ∧ b ≠ STX ∧ b ≠ DLE) →
      reads_at ctx offset bytes →
      offset < 256 → offset + bytes.length ≤ 256 →
      frame_sz + bytes.length < 65536 →
      read_frame_body ctx (m + bytes.length) rem offset frame_sz out =
        read_frame_body ctx m rem ((offset + bytes.length) % 256) (frame_sz + bytes.length)
          (out ++ bytes) := by
  induction bytes with
  | nil =>
    intro m rem offset frame_sz out _ _ _ hlt _ _
    simp only [List.length_nil, Nat.add_zero, List.append_nil]
    rw [Nat.mod_eq_of_lt hlt]
  | cons b bs ih =>
    intro m rem offset frame_sz out hrem hb hr hlt hoff hfs
    simp only [List.length_cons] at hoff hfs
    obtain ⟨hd, hr'⟩ := hr
    obtain ⟨b1, b2, b3⟩ := hb b (List.mem_cons_self b bs)
    have hstep := read_frame_body_plain ctx (m + bs.length) rem offset frame_sz out hrem
      (by rw [hd]; exact b1) (by rw [hd]; exact b2) (by rw [hd]; exact b3)
    rw [List.length_cons, ← Nat.add_assoc, hstep, hd, Nat.mod_eq_of_lt (by omega : frame_sz + 1 < 65536)]
    have hr'' : reads_at ctx ((offset + 1) % 256) bs := by
      rcases Nat.lt_or_ge (offset + 1) 256 with h | h
      · rw [Nat.mod_eq_of_lt h]; exact hr'
      · have : bs.length = 0 := by omega
        rw [List.length_eq_zero.mp this]; trivial
    have hoff' : (offset + 1) % 256 + bs.length ≤ 256 := by
      rcases Nat.lt_or_ge (offset + 1) 256 with h | h
      · rw [Nat.mod_eq_of_lt h]; omega
      · have : bs.length = 0 := by omega
        have := Nat.mod_lt (offset + 1) (by decide : 0 < 256)
        omega
    rw [ih m rem ((offset + 1) % 256) (frame_sz + 1) (out ++ [b]) hrem
      (fun x hx => hb x (List.mem_cons_of_mem b hx)) hr'' (Nat.mod_lt _ (by decide)) hoff'
      (by omega)]
    have e1 : offset + 1 + bs.length = offset + (bs.length + 1) := by omega
    have e2 : frame_sz + 1 + bs.length = frame_sz + (bs.length + 1) := by omega
    rw [Nat.mod_add_mod, List.append_assoc, List.singleton_append, e1, e2]

/-- The reader on a frame whose body starts with 255 ordinary bytes: the 8-bit
`offset` returns to 0 after them, the start marker of the same frame is read
again and the call returns `-EBADMSG` without consuming anything. -/
theorem read_frame_offset_wraps (ctx ctx1 : slh_agent_frame_ctx) (rx : rx_event)
    (max_sz : Nat) (bytes tail : List Nat)
    (hfetch : slh_agent_frame_buf_fetch ctx rx =
      some (slh_agent_frame_buf_waiting ctx1, ctx1))
    (hok : ring_ok ctx1)
    (hcontent : unread ctx1 = STX :: bytes ++ tail)
    (hb : ∀ b ∈ bytes, b ≠ ETX ∧ b ≠ STX ∧ b ≠ DLE)
    (hlen : bytes.length = 255)
    (hmax : 255 ≤ max_sz) :
    slh_agent_read_frame ctx rx max_sz = some (-EBADMSG, ctx1, bytes) := by
  obtain ⟨hw, hlt⟩ := waiting_of_ring_ok ctx1 hok
  have hN : ctx1.buffer_sz < 65536 := hok.2.1
  have hl := length_unread ctx1
  rw [hcontent] at hl
  simp only [List.length_cons, List.length_append] at hl
  have hreads := reads_at_unread ctx1
  rw [hcontent, List.cons_append, reads_at, reads_at_append] at hreads
  obtain ⟨hstx, hrb, _⟩ := hreads
  have hrem0 : (slh_agent_frame_buf_waiting ctx1 % 65536).toNat = occupied ctx1 := by
    rw [hw]; omega
  have hscan : read_until_stx ctx1 (occupied ctx1) 0 = (occupied ctx1, 0) :=
    read_until_stx_found ctx1 _ _ (by omega) hstx
  have hdeq : slh_agent_frame_buf_dequeue ctx1 0 = ctx1 := by
    rw [dequeue_eq ctx1 hok 0 (Nat.zero_le _)]
    simp [Nat.mod_eq_of_lt hok.2.2.1]
  obtain ⟨m, rfl⟩ : ∃ m, max_sz = m + bytes.length := ⟨max_sz - 255, by omega⟩
  unfold slh_agent_read_frame
  simp only [hfetch, hrem0, hscan, hdeq]
  rw [if_neg (by omega),
    read_frame_body_plain_run ctx1 bytes m (occupied ctx1 - 1) 1 0 [] (by omega) hb hrb
      (by omega) (by omega) (by omega)]
  have hz : (1 + bytes.length) % 256 = 0 := by rw [hlen]
  rw [hz, read_frame_body_stx ctx1 m (occupied ctx1 - 1) 0 _ _ (by omega) hstx, hdeq]
  simp


/-! ## Lemmas on consuming and discarding -/

theorem dequeue_clamp (ctx : slh_agent_frame_ctx) (h : ring_ok ctx) (len : Nat) :
    slh_agent_frame_buf_dequeue ctx len =
      slh_agent_frame_buf_dequeue ctx (min len (occupied ctx)) := by
  obtain ⟨hw, hlt⟩ := waiting_of_ring_ok ctx h
  obtain ⟨h0, h1, hr, hw'⟩ := h
  have e : ((occupied ctx : Int) % 65536).toNat = occupied ctx := by omega
  unfold slh_agent_frame_buf_dequeue
  rw [hw]
  simp only [e]
  rcases Nat.lt_or_ge (occupied ctx) len with hc | hc
  · rw [Nat.min_eq_right (Nat.le_of_lt hc), if_pos hc, if_neg (Nat.lt_irrefl _)]
  · rw [Nat.min_eq_left hc]

theorem drop_frame_loop_skip (ctx : slh_agent_frame_ctx) (pre : List Nat) :
    ∀ (rem num : Nat), (∀ b ∈ pre, b ≠ ETX ∧ b ≠ STX) → reads_at ctx num pre →
      num + pre.length < 65536 → pre.length ≤ rem →
      drop_frame_loop ctx rem num =
        drop_frame_loop ctx (rem - pre.length) (num + pre.length) := by
  induction pre with
  | nil => intro rem num _ _ _ _; simp
  | cons g gs ih =>
    intro rem num hg hr hnum hrem
    simp only [List.length_cons] at hnum hrem
    obtain ⟨hb, hr'⟩ := hr
    obtain ⟨g1, g2⟩ := hg g (List.mem_cons_self g gs)
    cases rem with
    | zero => omega
    | succ k =>
      have hmod : (num + 1) % 65536 = num + 1 := Nat.mod_eq_of_lt (by omega)
      rw [drop_frame_loop]
      simp only [hb, g1, g2, if_false, hmod]
      rw [ih k (num + 1) (fun b hb' => hg b (List.mem_cons_of_mem g hb')) hr' (by omega)
        (by omega)]
      simp only [List.length_cons]
      congr 1 <;> omega

theorem drop_frame_loop_etx (ctx : slh_agent_frame_ctx) (rem num : Nat) (hrem : 0 < rem)
    (hnum : num + 1 < 65536) (h : slh_agent_frame_buf_readbyte ctx num = ETX) :
    drop_frame_loop ctx rem num =
      (((num + 1 : Nat) : Int), slh_agent_frame_buf_dequeue ctx (num + 1)) := by
  cases rem with
  | zero => omega
  | succ k =>
    rw [drop_frame_loop]
    simp only [h, if_true, Nat.mod_eq_of_lt hnum]

theorem drop_frame_loop_stx (ctx : slh_agent_frame_ctx) (rem num : Nat) (hrem : 0 < rem)
    (hnum : num + 1 < 65536) (h : slh_agent_frame_buf_readbyte ctx num = STX) :
    drop_frame_loop ctx rem num = ((num : Int), slh_agent_frame_buf_dequeue ctx num) := by
  cases rem with
  | zero => omega
  | succ k =>
    have e1 : ((num + 1 : Nat) : Int) - 1 = (num : Int) := by omega
    have e2 : ((num : Int) % 65536).toNat = num := by omega
    have hne : STX ≠ ETX := by decide
    rw [drop_frame_loop]
    simp only [h, hne, if_true, if_false, Nat.mod_eq_of_lt hnum, e1, e2]

theorem drop_frame_rem (ctx : slh_agent_frame_ctx) (h : ring_ok ctx) :
    slh_agent_drop_frame ctx = drop_frame_loop ctx (occupied ctx) 0 := by
  obtain ⟨hw, hlt⟩ := waiting_of_ring_ok ctx h
  have hN := h.2.1
  unfold slh_agent_drop_frame
  rw [hw]
  have e : ((occupied ctx : Int) % 65536).toNat = occupied ctx := by omega
  rw [e]

theorem drop_frame_at_marker (ctx : slh_agent_frame_ctx) (h : ring_ok ctx)
    (pre post : List Nat) (m : Nat) (hcontent : unread ctx = pre ++ m :: post)
    (hpre : ∀ b ∈ pre, b ≠ ETX ∧ b ≠ STX) :
    slh_agent_drop_frame ctx = drop_frame_loop ctx (1 + post.length) pre.length ∧
      slh_agent_frame_buf_readbyte ctx pre.length = m ∧
      occupied ctx = pre.length + (1 + post.length) ∧ pre.length + 1 < 65536 := by
  obtain ⟨hw, hlt⟩ := waiting_of_ring_ok ctx h
  have hN := h.2.1
  have hl := length_unread ctx
  rw [hcontent] at hl
  simp only [List.length_cons, List.length_append] at hl
  have hreads := reads_at_unread ctx
  rw [hcontent, reads_at_append, reads_at] at hreads
  obtain ⟨hrp, hm, _⟩ := hreads
  rw [Nat.zero_add] at hm
  refine ⟨?_, hm, by omega, by omega⟩
  rw [drop_frame_rem ctx h,
    drop_frame_loop_skip ctx pre (occupied ctx) 0 hpre hrp (by omega) (by omega)]
  congr 1 <;> omega


/-! ## Lemmas on the inline writers and the session loop -/

theorem memcpy_memcpy (raw a b : List Nat) (p q : Nat) (hp : p ≤ raw.length)
    (hq : q = p + a.length) :
    memcpy (memcpy raw p a) q b = memcpy raw p (a ++ b) := by
  subst hq
  unfold memcpy
  have h1 : (List.take p raw ++ a).length = p + a.length := by
    simp [List.length_take, Nat.min_eq_left hp]
  have e1 : List.take (p + a.length) (List.take p raw ++ a ++ List.drop (p + a.length) raw)
      = List.take p raw ++ a := by
    rw [← h1, List.take_left]
  have e2 : List.drop (p + a.length + b.length)
      (List.take p raw ++ a ++ List.drop (p + a.length) raw)
      = List.drop (p + (a ++ b).length) raw := by
    rw [show p + a.length + b.length = (List.take p raw ++ a).length + b.length by rw [h1],
      List.drop_append, List.drop_drop, List.length_append]
    congr 1
    omega
  rw [e1, e2]
  simp only [List.append_assoc]

theorem memcpy_all (raw src : List Nat) (h : raw.length ≤ src.length) :
    memcpy raw 0 src = src := by
  unfold memcpy
  simp [List.drop_eq_nil_of_le h]

theorem strlen_le (s : List Nat) : strlen s ≤ s.length := by
  induction s with
  | nil => simp [strlen]
  | cons c cs ih =>
    unfold strlen
    split
    · simp
    · simp only [List.length_cons]; omega

theorem strlen_lt_of_mem (s : List Nat) (h : 0 ∈ s) : strlen s < s.length := by
  induction s with
  | nil => simp at h
  | cons c cs ih =>
    unfold strlen
    by_cases hc : c = 0
    · simp [hc]
    · rw [if_neg hc]
      have : 0 ∈ cs := by
        rcases List.mem_cons.mp h with h1 | h1
        · exact absurd h1.symm hc
        · exact h1
      have := ih this
      simp only [List.length_cons]
      omega

theorem take_strlen (s : List Nat) :
    s.take (strlen s) = s.takeWhile (fun c => c != 0) ∧
      (s.takeWhile (fun c => c != 0)).length = strlen s := by
  induction s with
  | nil => simp [strlen]
  | cons c cs ih =>
    unfold strlen
    by_cases hc : c = 0
    · simp [hc]
    · rw [if_neg hc]
      simp [List.takeWhile_cons, hc, ih.1, ih.2]

theorem object_bytes_htons (x : Nat) (h : x < 65536) :
    object_bytes 2 (htons x) = big_endian 2 x := by
  have hh : x / 256 < 256 := by omega
  have hl : x % 256 < 256 := Nat.mod_lt _ (by decide)
  simp only [object_bytes, htons, big_endian, List.nil_append, List.cons_append,
    List.cons.injEq, and_true]
  generalize x / 256 = hi at *
  generalize x % 256 = lo at *
  constructor <;> omega

theorem object_bytes_htonl (x : Nat) (h : x < 4294967296) :
    object_bytes 4 (htonl x) = big_endian 4 x := by
  have h3 : x / 16777216 < 256 := by omega
  have h0 : x % 256 < 256 := Nat.mod_lt _ (by decide)
  have h1 : x / 256 % 256 < 256 := Nat.mod_lt _ (by decide)
  have h2 : x / 65536 % 256 < 256 := Nat.mod_lt _ (by decide)
  simp only [object_bytes, htonl, big_endian, List.nil_append, List.cons_append,
    List.cons.injEq, and_true, Nat.div_div_eq_div_mul, Nat.reduceMul]
  rw [Nat.mod_eq_of_lt h3]
  generalize x / 16777216 = b3 at *
  generalize x / 65536 % 256 = b2 at *
  generalize x / 256 % 256 = b1 at *
  generalize x % 256 = b0 at *
  refine ⟨?_, ?_, ?_, ?_⟩ <;> omega

theorem device_detail_frame_eq (tap : slh_agent_tap_ctx) (raw : List Nat)
    (hmac : tap.mac.length = SLH_TAP_MAC_SZ)
    (hname : tap.name.length = SLH_TAP_NAME_SZ)
    (hmtu : tap.mtu < 65536)
    (hidx : 0 ≤ tap.ifindex ∧ tap.ifindex < 4294967296)
    (hraw : raw.length = 14 + strlen tap.name) :
    device_detail_frame tap raw =
      (SOH :: (tap.mac ++ big_endian 2 tap.mtu ++ big_endian 4 tap.ifindex.toNat ++
          [strlen tap.name] ++ tap.name.takeWhile (fun c => c != 0)),
        14 + strlen tap.name) := by
  have hs := strlen_le tap.name
  simp only [SLH_TAP_MAC_SZ, SLH_TAP_NAME_SZ] at hmac hname
  have hn : strlen tap.name % 256 = strlen tap.name := Nat.mod_eq_of_lt (by omega)
  have hm : tap.mtu % 65536 = tap.mtu := Nat.mod_eq_of_lt hmtu
  have hi : (tap.ifindex % 4294967296).toNat = tap.ifindex.toNat := by omega
  have hmt : (tap.mac.take 6).length = 6 := by simp [hmac]
  have hmt' : tap.mac.take 6 = tap.mac := List.take_of_length_le (by omega)
  have ho2 : ∀ v, (object_bytes 2 v).length = 2 := fun v => by simp [object_bytes]
  have ho4 : ∀ v, (object_bytes 4 v).length = 4 := fun v => by simp [object_bytes]
  unfold device_detail_frame
  simp only [hn, hm, hi, SLH_TAP_MAC_SZ]
  rw [memcpy_memcpy raw _ _ 0 1 (Nat.zero_le _) (by simp),
    memcpy_memcpy raw _ _ 0 (1 + 6) (Nat.zero_le _) (by simp [hmt]),
    memcpy_memcpy raw _ _ 0 (1 + 6 + 2) (Nat.zero_le _) (by simp [hmt, ho2]),
    memcpy_memcpy raw _ _ 0 (1 + 6 + 2 + 4) (Nat.zero_le _) (by simp [hmt, ho2, ho4]),
    memcpy_memcpy raw _ _ 0 (1 + 6 + 2 + 4 + 1) (Nat.zero_le _) (by simp [hmt, ho2, ho4]),
    memcpy_all raw _ (by
      simp only [List.length_append, List.length_cons, List.length_nil, hmt, ho2, ho4,
        List.length_take]
      omega),
    object_bytes_htons _ hmtu, object_bytes_htonl _ (by omega), hmt', (take_strlen _).1]
  simp

theorem fill_write_buf_length_le (rptr : List Nat) :
    ∀ buf : List Nat, (fill_write_buf rptr buf).2.length ≤ rptr.length := by
  induction rptr with
  | nil => intro buf; simp [fill_write_buf]
  | cons b rest ih =>
    intro buf
    unfold fill_write_buf
    split
    · split
      · simp
      · exact Nat.le_succ_of_le (ih _)
    · split
      · simp
      · exact Nat.le_succ_of_le (ih _)

theorem fill_write_buf_progress (b : Nat) (rest : List Nat) :
    (fill_write_buf (b :: rest) [STX]).2.length ≤ rest.length := by
  unfold fill_write_buf
  split
  · rw [if_neg (by simp [SLH_WRITE_BUF_SZ])]
    exact fill_write_buf_length_le rest _
  · rw [if_neg (by simp [SLH_WRITE_BUF_SZ])]
    exact fill_write_buf_length_le rest _

theorem write_chunks_nil (tx : Nat → List Nat → Int × Int) (fuel : Nat) (etx_sent : Bool)
    (log : List (List Nat)) :
    ∃ res out, write_chunks tx fuel [] etx_sent log = some (res, out) := by
  cases fuel <;> cases etx_sent <;>
    by_cases hc : (tx log.length [ETX]).1 < 1 <;> simp [write_chunks, hc]

/-- The writer always returns: `fuel` outer iterations are enough for `fuel` bytes. -/
theorem write_chunks_returns (tx : Nat → List Nat → Int × Int) :
    ∀ (fuel : Nat) (rptr : List Nat) (etx_sent : Bool) (log : List (List Nat)),
      rptr.length ≤ fuel →
      ∃ res out, write_chunks tx fuel rptr etx_sent log = some (res, out) := by
  intro fuel
  induction fuel with
  | zero =>
    intro rptr etx_sent log h
    have : rptr = [] := List.length_eq_zero.mp (Nat.le_zero.mp h)
    subst this
    exact write_chunks_nil tx 0 etx_sent log
  | succ n ih =>
    intro rptr etx_sent log h
    cases rptr with
    | nil => exact write_chunks_nil tx (n + 1) etx_sent log
    | cons b rest =>
      have hp := fill_write_buf_progress b rest
      simp only [List.length_cons] at h
      rw [write_chunks]
      simp only [Bool.not_false, if_true]
      repeat' split
      all_goals first
        | exact ⟨_, _, rfl⟩
        | exact ih _ _ _ (by omega)

theorem write_frame_returns (tx : Nat → List Nat → Int × Int) (frame : slh_agent_frame)
    (frame_sz : Nat) : ∃ res out, slh_agent_write_frame tx frame frame_sz = some (res, out) := by
  unfold slh_agent_write_frame
  apply write_chunks_returns
  simp [List.length_take]

/-- A frame without payload whose type is not a marker goes out as one chunk of
three bytes, whatever the transport does with it. -/
theorem write_frame_nopayload_chunk (tx : Nat → List Nat → Int × Int) (type : Nat)
    (ht : type ≠ STX ∧ type ≠ ETX ∧ type ≠ DLE) :
    ∃ res, slh_agent_write_frame_nopayload tx type = some (res, [[STX, type, ETX]]) := by
  obtain ⟨h2, h3, h16⟩ := ht
  simp only [STX, ETX, DLE] at h2 h3 h16 ⊢
  by_cases hc : (tx 0 [2, type, 3]).1 < 3
  · exact ⟨-(tx 0 [2, type, 3]).2, by
      simp [slh_agent_write_frame_nopayload, slh_agent_write_frame, write_chunks,
        fill_write_buf, h2, h3, h16, hc, SLH_WRITE_BUF_SZ, STX, ETX, DLE]⟩
  · exact ⟨0, by
      simp [slh_agent_write_frame_nopayload, slh_agent_write_frame, write_chunks,
        fill_write_buf, h2, h3, h16, hc, SLH_WRITE_BUF_SZ, STX, ETX, DLE]⟩

/-- With `pending` set, an iteration of the session loop writes nothing to the
control transport, or one acknowledgement frame, or one rejection frame. -/
theorem main_loop_step_written_pending (mtu : Nat) (s : loop_state) (e : loop_event)
    (out : loop_outcome) (hp : s.pending = true) (hstep : main_loop_step mtu s e = some out) :
    out.ctl_written = [] ∨ out.ctl_written = [[STX, ACK, ETX]] ∨
      out.ctl_written = [[STX, NAK, ETX]] := by
  obtain ⟨ra, ha⟩ := write_frame_nopayload_chunk e.tx ACK (by decide)
  obtain ⟨rn, hn⟩ := write_frame_nopayload_chunk e.tx NAK (by decide)
  unfold main_loop_step at hstep
  by_cases c1 : e.select_res < 0
  · rw [if_pos c1] at hstep
    cases hstep; left; rfl
  rw [if_neg c1] at hstep
  by_cases c2 : e.select_res > 0
  swap
  · rw [if_neg c2] at hstep
    cases hstep; left; rfl
  rw [if_pos c2] at hstep
  by_cases c3 : e.tap_ready = true
  · rw [if_pos c3] at hstep
    simp only [hp, if_true] at hstep
    by_cases c4 : e.tap_len < 0
    · rw [if_pos c4] at hstep
      by_cases c5 : e.tap_len = -EMSGSIZE
      · rw [if_pos c5] at hstep; cases hstep; left; rfl
      · rw [if_neg c5] at hstep; cases hstep; left; rfl
    · rw [if_neg c4] at hstep; cases hstep; left; rfl
  rw [if_neg c3] at hstep
  by_cases c6 : e.ctl_ready = true
  swap
  · rw [if_neg c6] at hstep; cases hstep; left; rfl
  rw [if_pos c6] at hstep
  cases hrd : slh_agent_read_frame s.ctl e.rx ((mtu + 1) % 65536) with
  | none => rw [hrd] at hstep; cases hstep
  | some r =>
    obtain ⟨len, ctl, o⟩ := r
    rw [hrd] at hstep
    simp only [] at hstep
    by_cases c7 : len = -EBADMSG
    · rw [if_pos c7] at hstep; cases hstep; left; rfl
    rw [if_neg c7] at hstep
    by_cases c8 : len > 0
    swap
    · rw [if_neg c8] at hstep; cases hstep; left; rfl
    rw [if_pos c8] at hstep
    by_cases c9 : o.headD 0 = EOT
    · simp only [c9, if_true] at hstep; cases hstep; left; rfl
    simp only [c9, if_false] at hstep
    by_cases c10 : o.headD 0 = FS
    · simp only [c10, if_true] at hstep
      by_cases c11 : e.tap_write_res < 0
      · simp only [c11, if_true, hn] at hstep; cases hstep; right; right; rfl
      · simp only [c11, if_false, ha] at hstep; cases hstep; right; left; rfl
    simp only [c10, if_false] at hstep
    by_cases c12 : o.headD 0 = SYN
    · simp only [c12, if_true, ha] at hstep; cases hstep; right; left; rfl
    simp only [c12, if_false] at hstep
    by_cases c13 : o.headD 0 = ACK ∨ o.headD 0 = NAK
    · simp only [c13, if_true] at hstep; cases hstep; left; rfl
    · simp only [c13, if_false, hn] at hstep; cases hstep; right; right; rfl


/-! ## Ingest lemmas -/

theorem mod_of_lt_two_mul (a n : Nat) (h : a < 2 * n) :
    a % n = if a < n then a else a - n := by
  split
  · next hlt => exact Nat.mod_eq_of_lt hlt
  · next hge =>
    rw [Nat.mod_eq_sub_mod (by omega), Nat.mod_eq_of_lt (by omega)]

theorem memcpy_length (buffer : List Nat) (pos : Nat) (src : List Nat)
    (h : pos + src.length ≤ buffer.length) : (memcpy buffer pos src).length = buffer.length := by
  simp only [memcpy, List.length_append, List.length_take, List.length_drop]
  omega

theorem memcpy_getD (buffer : List Nat) (pos : Nat) (src : List Nat)
    (h : pos + src.length ≤ buffer.length) (j : Nat) :
    (memcpy buffer pos src).getD j 0 =
      if pos ≤ j ∧ j < pos + src.length then src.getD (j - pos) 0 else buffer.getD j 0 := by
  have htake : (buffer.take pos).length = pos := by
    rw [List.length_take]; omega
  simp only [memcpy, List.getD_eq_getElem?_getD]
  by_cases h1 : j < pos
  · rw [if_neg (by omega), List.append_assoc,
      List.getElem?_append_left (by rw [htake]; exact h1), List.getElem?_take_of_lt h1]
  · by_cases h2 : j < pos + src.length
    · rw [if_pos ⟨by omega, h2⟩, List.append_assoc,
        List.getElem?_append_right (by rw [htake]; omega), htake,
        List.getElem?_append_left (by omega)]
    · rw [if_neg (by omega),
        List.getElem?_append_right (by rw [List.length_append, htake]; omega),
        List.length_append, htake, List.getElem?_drop]
      congr 2
      omega

/-- One `memcpy` of the copy loop: `chunk` fits between the write cursor and the
end of storage and leaves at least one byte free. -/
theorem copy_step (ctx : slh_agent_frame_ctx) (hok : ring_ok ctx)
    (hbuf : ctx.buffer.length = ctx.buffer_sz) (chunk : List Nat)
    (hfit : ctx.write_ptr + chunk.length ≤ ctx.buffer_sz)
    (hfree : chunk.length + occupied ctx < ctx.buffer_sz) :
    ring_ok { ctx with
        buffer := memcpy ctx.buffer ctx.write_ptr chunk
        write_ptr := (ctx.write_ptr + chunk.length) % ctx.buffer_sz } ∧
      occupied { ctx with
        buffer := memcpy ctx.buffer ctx.write_ptr chunk
        write_ptr := (ctx.write_ptr + chunk.length) % ctx.buffer_sz } =
        occupied ctx + chunk.length ∧
      unread { ctx with
        buffer := memcpy ctx.buffer ctx.write_ptr chunk
        write_ptr := (ctx.write_ptr + chunk.length) % ctx.buffer_sz } =
        unread ctx ++ chunk := by
  obtain ⟨h0, h1, hr, hw⟩ := hok
  have hwm := mod_of_lt_two_mul (ctx.write_ptr + chunk.length) ctx.buffer_sz (by omega)
  have hocc : occupied { ctx with
        buffer := memcpy ctx.buffer ctx.write_ptr chunk
        write_ptr := (ctx.write_ptr + chunk.length) % ctx.buffer_sz } =
        occupied ctx + chunk.length := by
    revert hfree
    unfold occupied slh_agent_frame_buf_waiting
    simp only
    rw [hwm]
    intro hfree
    split at hfree <;> split <;> split <;> omega
  refine ⟨⟨h0, h1, hr, Nat.mod_lt _ h0⟩, hocc, ?_⟩
  apply List.ext_getElem
  · rw [length_unread, hocc, List.length_append, length_unread]
  · intro i hi1 hi2
    rw [length_unread, hocc] at hi1
    have hidx := mod_of_lt_two_mul (ctx.read_ptr + i) ctx.buffer_sz (by omega)
    simp only [unread, List.getElem_map, List.getElem_range, slh_agent_frame_buf_readbyte]
    rw [memcpy_getD _ _ _ (by rw [hbuf]; exact hfit), hidx]
    by_cases hi : i < occupied ctx
    · rw [List.getElem_append_left (by rw [List.length_map, List.length_range]; exact hi)]
      simp only [List.getElem_map, List.getElem_range, slh_agent_frame_buf_readbyte, hidx]
      rw [if_neg]
      revert hi hfree
      unfold occupied slh_agent_frame_buf_waiting
      intro hi hfree
      split at hi <;> split <;> omega
    · rw [List.getElem_append_right (by rw [List.length_map, List.length_range]; omega)]
      simp only [List.length_map, List.length_range]
      have hpos : (if ctx.read_ptr + i < ctx.buffer_sz then ctx.read_ptr + i
          else ctx.read_ptr + i - ctx.buffer_sz) = ctx.write_ptr + (i - occupied ctx) := by
        revert hi hi1 hfree
        unfold occupied slh_agent_frame_buf_waiting
        intro hi hi1 hfree
        split at hi <;> split <;> omega
      rw [hpos, if_pos ⟨by omega, by omega⟩, List.getD_eq_getElem _ _ (by omega)]
      congr 1
      omega

/-- The copy loop on `ptr.length` bytes that leave at least one byte of the
buffer free: it terminates and appends the bytes to the unread content. -/
theorem fetch_copy_data : ∀ (fuel : Nat) (ctx : slh_agent_frame_ctx) (ptr : List Nat),
    ring_ok ctx → ctx.buffer.length = ctx.buffer_sz →
    ptr.length + occupied ctx < ctx.buffer_sz → ptr.length < fuel →
    ∃ ctx1, fetch_copy fuel ctx ptr (ptr.length : Int) = some ctx1 ∧ ring_ok ctx1 ∧
      ctx1.buffer.length = ctx1.buffer_sz ∧ ctx1.buffer_sz = ctx.buffer_sz ∧
      ctx1.read_ptr = ctx.read_ptr ∧ occupied ctx1 = occupied ctx + ptr.length ∧
      unread ctx1 = unread ctx ++ ptr := by
  intro fuel
  induction fuel with
  | zero => intro ctx ptr _ _ _ h; omega
  | succ fuel ih =>
    intro ctx ptr hok hbuf hfree hfuel
    by_cases hnil : ptr.length = 0
    · have hp : ptr = [] := List.length_eq_zero.mp hnil
      subst hp
      exact ⟨ctx, by simp [fetch_copy], hok, hbuf, rfl, rfl, by simp, by simp⟩
    · have hne : ¬ ((ptr.length : Int) = 0) := by omega
      obtain ⟨h0, h1, hr, hw⟩ := hok
      obtain ⟨len, hdef, hpos, hle, hfit⟩ : ∃ len : Nat,
          (if ((if ctx.read_ptr ≤ ctx.write_ptr then
                (((ctx.buffer_sz : Int) - ctx.write_ptr) % 65536).toNat
              else (((ctx.read_ptr : Int) - ctx.write_ptr) % 65536).toNat : Nat) : Int)
                > (ptr.length : Int)
            then ((ptr.length : Int) % 65536).toNat
            else (if ctx.read_ptr ≤ ctx.write_ptr then
                (((ctx.buffer_sz : Int) - ctx.write_ptr) % 65536).toNat
              else (((ctx.read_ptr : Int) - ctx.write_ptr) % 65536).toNat)) = len ∧
          1 ≤ len ∧ len ≤ ptr.length ∧ ctx.write_ptr + len ≤ ctx.buffer_sz := by
        refine ⟨_, rfl, ?_, ?_, ?_⟩ <;> split <;> split <;> omega
      have htl : (ptr.take len).length = len := by
        rw [List.length_take]; omega
      have hstep := copy_step ctx ⟨h0, h1, hr, hw⟩ hbuf (ptr.take len)
        (by rw [htl]; exact hfit) (by rw [htl]; omega)
      rw [htl] at hstep
      obtain ⟨hok', hocc', hun'⟩ := hstep
      have hdl : (ptr.drop len).length = ptr.length - len := List.length_drop len ptr
      obtain ⟨ctx1, hc, hok1, hb1, hn1, hr1, ho1, hu1⟩ := ih
        { ctx with
          buffer := memcpy ctx.buffer ctx.write_ptr (ptr.take len)
          write_ptr := (ctx.write_ptr + len) % ctx.buffer_sz }
        (ptr.drop len) hok'
        (by
          have := memcpy_length ctx.buffer ctx.write_ptr (ptr.take len)
            (by rw [htl, hbuf]; exact hfit)
          simp only [this, hbuf])
        (by
          show (ptr.drop len).length + occupied _ < ctx.buffer_sz
          rw [hocc', hdl]; omega)
        (by rw [hdl]; omega)
      refine ⟨ctx1, ?_, hok1, hb1, hn1, hr1, ?_, ?_⟩
      · rw [fetch_copy]
        simp only [hne, if_false]
        rw [hdef]
        have hsz : (ptr.length : Int) - (len : Int) = ((ptr.drop len).length : Int) := by
          rw [hdl]; omega
        rw [hsz]
        exact hc
      · rw [ho1, hocc', hdl]; omega
      · rw [hu1, hun', List.append_assoc, List.take_append_drop]

/-- The ingest step when bytes are ready that the request covers and that leave
at least one byte of the buffer free: it reports the occupied count, and the
unread content is the old one followed by the new bytes. -/
theorem fetch_data_appends (ctx : slh_agent_frame_ctx) (bytes : List Nat)
    (hok : ring_ok ctx) (hbuf : ctx.buffer.length = ctx.buffer_sz)
    (hrem : fetch_buf_rem ctx ≠ 0)
    (hreq : bytes.length ≤ fetch_buf_rem ctx)
    (hfree : bytes.length + occupied ctx < ctx.buffer_sz) :
    ∃ ctx1, slh_agent_frame_buf_fetch ctx (.data bytes) =
        some (slh_agent_frame_buf_waiting ctx1, ctx1) ∧ ring_ok ctx1 ∧
      ctx1.buffer.length = ctx1.buffer_sz ∧ ctx1.buffer_sz = ctx.buffer_sz ∧
      ctx1.read_ptr = ctx.read_ptr ∧ occupied ctx1 = occupied ctx + bytes.length ∧
      unread ctx1 = unread ctx ++ bytes := by
  obtain ⟨ctx1, hc, hrest⟩ := fetch_copy_data (bytes.length + 1) ctx bytes hok hbuf hfree
    (by omega)
  refine ⟨ctx1, ?_, hrest⟩
  unfold slh_agent_frame_buf_fetch
  simp only [hrem, if_false, List.take_of_length_le hreq, hc, Option.map_some']

/-- On an empty ring buffer the request covers every run of fewer than
`buffer_sz` bytes. -/
theorem fetch_buf_rem_empty (ctx : slh_agent_frame_ctx) (hok : ring_ok ctx)
    (he : ctx.read_ptr = ctx.write_ptr) :
    fetch_buf_rem ctx = ctx.buffer_sz ∧ occupied ctx = 0 := by
  obtain ⟨h0, h1, hr, hw⟩ := hok
  unfold fetch_buf_rem occupied slh_agent_frame_buf_waiting
  rw [he]
  simp only [le_refl, if_true]
  constructor <;> omega

/-! ## Lemmas on the would-block path of the ingest step -/

/-- The first iteration of the copy loop when `read` returned -1: `len` becomes
65535, the write cursor moves by 65535 modulo the capacity and `sz` becomes
-65536. -/
theorem fetch_copy_first_step (fuel : Nat) (ctx : slh_agent_frame_ctx) :
    fetch_copy (fuel + 1) ctx [] (-1) =
      fetch_copy fuel
        { ctx with
          buffer := memcpy ctx.buffer ctx.write_ptr []
          write_ptr := (ctx.write_ptr + 65535) % ctx.buffer_sz }
        [] (-65536) := by
  have hgt : ∀ n : Nat, (n : Int) > -1 := fun n => by omega
  rw [fetch_copy, if_neg (by decide)]
  simp only [hgt, if_true]
  rfl

/-- Once `sz` is a negative multiple of 65536 every iteration of the copy loop
copies 0 bytes and leaves `sz` as it is: the loop is still running after any
number of iterations. -/
theorem fetch_copy_spins (sz : Int) (hneg : sz < 0) (hmod : sz % 65536 = 0) :
    ∀ (fuel : Nat) (ctx : slh_agent_frame_ctx) (ptr : List Nat),
      fetch_copy fuel ctx ptr sz = none := by
  have hgt : ∀ n : Nat, (n : Int) > sz := fun n => by omega
  intro fuel
  induction fuel with
  | zero => intro ctx ptr; rfl
  | succ n ih =>
    intro ctx ptr
    rw [fetch_copy, if_neg (by omega)]
    simp only [hgt, if_true, hmod, Int.toNat_zero, Nat.cast_zero, sub_zero]
    exact ih _ _

theorem fetch_copy_would_block (fuel : Nat) (ctx : slh_agent_frame_ctx) :
    fetch_copy fuel ctx [] (-1) = none := by
  cases fuel with
  | zero => rfl
  | succ n =>
    rw [fetch_copy_first_step]
    exact fetch_copy_spins (-65536) (by decide) (by decide) _ _ _


/-- The ingest step does not return when there is room in the buffer and `read`
reports a would-block condition. -/
theorem fetch_would_block (ctx : slh_agent_frame_ctx) (errno : Int)
    (herr : errno = EAGAIN ∨ errno = EWOULDBLOCK) (hrem : fetch_buf_rem ctx ≠ 0) :
    slh_agent_frame_buf_fetch ctx (.read_error errno) = none := by
  have he : ¬ (errno ≠ EAGAIN ∧ errno ≠ EWOULDBLOCK) := by
    rcases herr with h | h <;> simp [h]
  unfold slh_agent_frame_buf_fetch
  simp only [hrem, if_false, he, fetch_copy_would_block, Option.map_none']

/-! ## Lemmas on the chunks of the writer -/

theorem escape_code_ne_dle (b : Nat) : escape_code b ≠ DLE := by
  unfold escape_code
  split
  · decide
  · split <;> decide

theorem getLast_append_escape_bytes (p : List Nat) :
    ∀ acc : List Nat, acc.getLast? ≠ some DLE →
      (acc ++ escape_bytes p).getLast? ≠ some DLE := by
  induction p with
  | nil => intro acc h; simpa [escape_bytes] using h
  | cons b bs ih =>
    intro acc _
    unfold escape_bytes
    split
    · have e : acc ++ DLE :: escape_code b :: escape_bytes bs =
          (acc ++ [DLE, escape_code b]) ++ escape_bytes bs := by simp
      rw [e]
      apply ih
      have e2 : acc ++ [DLE, escape_code b] = (acc ++ [DLE]) ++ [escape_code b] := by simp
      rw [e2, List.getLast?_concat]
      intro h
      exact escape_code_ne_dle b (Option.some.inj h)
    · next hb =>
      have e : acc ++ b :: escape_bytes bs = (acc ++ [b]) ++ escape_bytes bs := by simp
      rw [e]
      apply ih
      rw [List.getLast?_concat]
      intro h
      exact hb (Or.inr (Or.inr (Option.some.inj h)))

/-- The inner loop of the writer consumes a run `p` of the remaining bytes and
appends its escaped encoding to `buf`, without exceeding the buffer. -/
theorem fill_write_buf_spec (rptr : List Nat) :
    ∀ buf : List Nat, ∃ p : List Nat,
      rptr = p ++ (fill_write_buf rptr buf).2 ∧
      (fill_write_buf rptr buf).1 = buf ++ escape_bytes p ∧
      (buf.length ≤ SLH_WRITE_BUF_SZ → (fill_write_buf rptr buf).1.length ≤ SLH_WRITE_BUF_SZ) := by
  induction rptr with
  | nil => intro buf; exact ⟨[], by simp [fill_write_buf, escape_bytes]⟩
  | cons b rest ih =>
    intro buf
    unfold fill_write_buf
    by_cases hb : b = STX ∨ b = ETX ∨ b = DLE
    · rw [if_pos hb]
      by_cases hfull : buf.length + 1 ≥ SLH_WRITE_BUF_SZ
      · rw [if_pos hfull]
        exact ⟨[], by simp [escape_bytes]⟩
      · rw [if_neg hfull]
        obtain ⟨p, h1, h2, h3⟩ := ih (buf ++ [DLE, escape_code b])
        refine ⟨b :: p, ?_, ?_, ?_⟩
        · rw [List.cons_append, ← h1]
        · rw [h2]
          simp [escape_bytes, hb]
        · intro _
          apply h3
          simp only [List.length_append, List.length_cons, List.length_nil]
          omega
    · rw [if_neg hb]
      by_cases hfull : buf.length ≥ SLH_WRITE_BUF_SZ
      · rw [if_pos hfull]
        exact ⟨[], by simp [escape_bytes]⟩
      · rw [if_neg hfull]
        obtain ⟨p, h1, h2, h3⟩ := ih (buf ++ [b])
        refine ⟨b :: p, ?_, ?_, ?_⟩
        · rw [List.cons_append, ← h1]
        · rw [h2]
          simp [escape_bytes, hb]
        · intro _
          apply h3
          simp only [List.length_append, List.length_cons, List.length_nil]
          omega

/-- One outer iteration of the writer takes a non-empty run `p` of the
remaining bytes and builds the chunk `STX :: escape_bytes p` of at most
`SLH_WRITE_BUF_SZ` bytes. -/
theorem fill_write_buf_first (b : Nat) (rest : List Nat) :
    ∃ p : List Nat, p ≠ [] ∧
      b :: rest = p ++ (fill_write_buf (b :: rest) [STX]).2 ∧
      (fill_write_buf (b :: rest) [STX]).1 = STX :: escape_bytes p ∧
      (fill_write_buf (b :: rest) [STX]).1.length ≤ SLH_WRITE_BUF_SZ := by
  obtain ⟨p, h1, h2, h3⟩ := fill_write_buf_spec (b :: rest) [STX]
  refine ⟨p, ?_, h1, by simpa using h2, h3 (by simp [SLH_WRITE_BUF_SZ])⟩
  intro hp
  have hl := fill_write_buf_progress b rest
  rw [hp, List.nil_append] at h1
  rw [← h1] at hl
  simp at hl

theorem with_end_marker_nil : with_end_marker [] = [[ETX]] := rfl

theorem with_end_marker_single (d : List Nat) :
    with_end_marker [d] =
      if d.length < SLH_WRITE_BUF_SZ then [d ++ [ETX]] else [d, [ETX]] := by
  simp [with_end_marker]

theorem with_end_marker_cons (d : List Nat) (l : List (List Nat)) (h : l ≠ []) :
    with_end_marker (d :: l) = d :: with_end_marker l := by
  obtain ⟨x, xs, rfl⟩ := List.exists_cons_of_ne_nil h
  unfold with_end_marker
  rw [List.getLast?_cons_cons]
  cases hl : (x :: xs).getLast? with
  | none => simp at hl
  | some e =>
    simp only
    split
    · simp [List.dropLast]
    · simp

/-- Every chunk the writer passes to the transport, whatever the transport
answers, has between 1 and `SLH_WRITE_BUF_SZ` bytes and does not end with `DLE`. -/
theorem write_chunks_bounds (tx : Nat → List Nat → Int × Int) :
    ∀ (fuel : Nat) (rptr : List Nat) (etx_sent : Bool) (log : List (List Nat)),
      rptr.length ≤ fuel →
      ∃ res new, write_chunks tx fuel rptr etx_sent log = some (res, log ++ new) ∧
        ∀ c ∈ new, 1 ≤ c.length ∧ c.length ≤ SLH_WRITE_BUF_SZ ∧ c.getLast? ≠ some DLE := by
  have hetx : ∀ c ∈ [[ETX]], 1 ≤ c.length ∧ c.length ≤ SLH_WRITE_BUF_SZ ∧
      c.getLast? ≠ some DLE := by
    intro c hc
    rw [List.mem_singleton] at hc
    subst hc
    decide
  have hnil : ∀ (fuel : Nat) (etx_sent : Bool) (log : List (List Nat)),
      ∃ res new, write_chunks tx fuel [] etx_sent log = some (res, log ++ new) ∧
        ∀ c ∈ new, 1 ≤ c.length ∧ c.length ≤ SLH_WRITE_BUF_SZ ∧ c.getLast? ≠ some DLE := by
    intro fuel etx_sent log
    cases etx_sent
    · by_cases hc : (tx log.length [ETX]).1 < 1
      · exact ⟨-(tx log.length [ETX]).2, [[ETX]],
          by cases fuel <;> simp [write_chunks, hc], hetx⟩
      · exact ⟨0, [[ETX]], by cases fuel <;> simp [write_chunks, hc], hetx⟩
    · exact ⟨0, [], by cases fuel <;> simp [write_chunks], by simp⟩
  intro fuel
  induction fuel with
  | zero =>
    intro rptr etx_sent log h
    have : rptr = [] := List.length_eq_zero.mp (Nat.le_zero.mp h)
    subst this
    exact hnil 0 etx_sent log
  | succ n ih =>
    intro rptr etx_sent log h
    cases rptr with
    | nil => exact hnil (n + 1) etx_sent log
    | cons b rest =>
      obtain ⟨p, hp, hsplit, hfill, hlen⟩ := fill_write_buf_first b rest
      have hprog := fill_write_buf_progress b rest
      simp only [List.length_cons] at h
      have hlast1 : (fill_write_buf (b :: rest) [STX]).1.getLast? ≠ some DLE := by
        rw [hfill]
        exact getLast_append_escape_bytes p [STX] (by decide)
      have hpos : 1 ≤ (fill_write_buf (b :: rest) [STX]).1.length := by
        rw [hfill]; simp
      rw [write_chunks]
      simp only [Bool.not_false, if_true]
      by_cases hl : ((fill_write_buf (b :: rest) [STX]).2.isEmpty &&
          decide ((fill_write_buf (b :: rest) [STX]).1.length < SLH_WRITE_BUF_SZ)) = true
      · have hlt : (fill_write_buf (b :: rest) [STX]).1.length < SLH_WRITE_BUF_SZ := by
          simp only [Bool.and_eq_true, decide_eq_true_eq] at hl
          exact hl.2
        have hc : ∀ c ∈ [(fill_write_buf (b :: rest) [STX]).1 ++ [ETX]],
            1 ≤ c.length ∧ c.length ≤ SLH_WRITE_BUF_SZ ∧ c.getLast? ≠ some DLE := by
          intro c hc
          rw [List.mem_singleton] at hc
          subst hc
          refine ⟨by simp, by simp only [List.length_append, List.length_singleton]; omega, ?_⟩
          rw [List.getLast?_concat]
          decide
        simp only [hl, if_true]
        split
        · exact ⟨_, _, rfl, hc⟩
        · obtain ⟨res, new, he, hb⟩ := ih (fill_write_buf (b :: rest) [STX]).2
            (true || etx_sent) (log ++ [(fill_write_buf (b :: rest) [STX]).1 ++ [ETX]])
            (by omega)
          refine ⟨res, [(fill_write_buf (b :: rest) [STX]).1 ++ [ETX]] ++ new, ?_, ?_⟩
          · rw [he, List.append_assoc]
          · intro c hc'
            rcases List.mem_append.mp hc' with h1 | h1
            · exact hc c h1
            · exact hb c h1
      · have hl' : ((fill_write_buf (b :: rest) [STX]).2.isEmpty &&
            decide ((fill_write_buf (b :: rest) [STX]).1.length < SLH_WRITE_BUF_SZ)) = false := by
          simpa using hl
        have hc : ∀ c ∈ [(fill_write_buf (b :: rest) [STX]).1],
            1 ≤ c.length ∧ c.length ≤ SLH_WRITE_BUF_SZ ∧ c.getLast? ≠ some DLE := by
          intro c hc
          rw [List.mem_singleton] at hc
          subst hc
          exact ⟨hpos, hlen, hlast1⟩
        simp only [hl', Bool.false_eq_true, if_false]
        split
        · exact ⟨_, _, rfl, hc⟩
        · obtain ⟨res, new, he, hb⟩ := ih (fill_write_buf (b :: rest) [STX]).2
            (false || etx_sent) (log ++ [(fill_write_buf (b :: rest) [STX]).1])
            (by omega)
          refine ⟨res, [(fill_write_buf (b :: rest) [STX]).1] ++ new, ?_, ?_⟩
          · rw [he, List.append_assoc]
          · intro c hc'
            rcases List.mem_append.mp hc' with h1 | h1
            · exact hc c h1
            · exact hb c h1

/-- On a transport that accepts every chunk the writer returns 0, and the
chunks are the escaped encodings of consecutive non-empty runs of the frame
bytes, each after a start marker, with the end marker placed by
`with_end_marker`. -/
theorem write_chunks_complete (tx : Nat → List Nat → Int × Int)
    (hacc : ∀ (i : Nat) (chunk : List Nat), (chunk.length : Int) ≤ (tx i chunk).1) :
    ∀ (fuel : Nat) (rptr : List Nat) (log : List (List Nat)),
      rptr.length ≤ fuel →
      ∃ pieces : List (List Nat), pieces.flatten = rptr ∧ (∀ p ∈ pieces, p ≠ []) ∧
        write_chunks tx fuel rptr false log =
          some (0, log ++ with_end_marker (pieces.map (fun p => STX :: escape_bytes p))) := by
  have hnil : ∀ (fuel : Nat) (log : List (List Nat)),
      write_chunks tx fuel [] false log = some (0, log ++ [[ETX]]) := by
    intro fuel log
    have h1 : ¬ (tx log.length [ETX]).1 < 1 := by
      have := hacc log.length [ETX]
      simp only [List.length_singleton, Nat.cast_one] at this
      omega
    cases fuel <;> simp [write_chunks, h1]
  have hdone : ∀ (fuel : Nat) (log : List (List Nat)),
      write_chunks tx fuel [] true log = some (0, log) := by
    intro fuel log
    cases fuel <;> simp [write_chunks]
  intro fuel
  induction fuel with
  | zero =>
    intro rptr log h
    have : rptr = [] := List.length_eq_zero.mp (Nat.le_zero.mp h)
    subst this
    exact ⟨[], rfl, by simp, by rw [hnil]; rfl⟩
  | succ n ih =>
    intro rptr log h
    cases rptr with
    | nil => exact ⟨[], rfl, by simp, by rw [hnil]; rfl⟩
    | cons b rest =>
      obtain ⟨p, hp, hsplit, hfill, hlen⟩ := fill_write_buf_first b rest
      have hprog := fill_write_buf_progress b rest
      simp only [List.length_cons] at h
      rw [write_chunks]
      simp only [Bool.not_false, if_true, Bool.or_false]
      by_cases hl : ((fill_write_buf (b :: rest) [STX]).2.isEmpty &&
          decide ((fill_write_buf (b :: rest) [STX]).1.length < SLH_WRITE_BUF_SZ)) = true
      · have hl2 := hl
        simp only [Bool.and_eq_true, decide_eq_true_eq, List.isEmpty_iff] at hl2
        obtain ⟨hempty, hlt⟩ := hl2
        have hacc1 : ¬ (tx log.length ((fill_write_buf (b :: rest) [STX]).1 ++ [ETX])).1 <
            (((fill_write_buf (b :: rest) [STX]).1 ++ [ETX]).length : Int) :=
          not_lt.mpr (hacc _ _)
        simp only [hl, if_true, hacc1, if_false]
        rw [hempty, hdone]
        refine ⟨[p], ?_, ?_, ?_⟩
        · rw [hsplit, hempty]; simp
        · intro q hq
          rw [List.mem_singleton] at hq
          rw [hq]; exact hp
        · rw [List.map_singleton, with_end_marker_single, ← hfill, if_pos hlt]
      · have hl' : ((fill_write_buf (b :: rest) [STX]).2.isEmpty &&
            decide ((fill_write_buf (b :: rest) [STX]).1.length < SLH_WRITE_BUF_SZ)) = false := by
          simpa using hl
        have hacc1 : ¬ (tx log.length (fill_write_buf (b :: rest) [STX]).1).1 <
            ((fill_write_buf (b :: rest) [STX]).1.length : Int) :=
          not_lt.mpr (hacc _ _)
        simp only [hl', Bool.false_eq_true, if_false, hacc1]
        obtain ⟨pieces, hflat, hne, hw⟩ := ih (fill_write_buf (b :: rest) [STX]).2
          (log ++ [(fill_write_buf (b :: rest) [STX]).1]) (by omega)
        refine ⟨p :: pieces, ?_, ?_, ?_⟩
        · rw [List.flatten_cons, hflat, ← hsplit]
        · intro q hq
          rcases List.mem_cons.mp hq with h1 | h1
          · rw [h1]; exact hp
          · exact hne q h1
        · rw [hw, List.append_assoc, List.map_cons, ← hfill]
          congr 2
          cases pieces with
          | nil =>
            have hempty : (fill_write_buf (b :: rest) [STX]).2 = [] := by
              rw [← hflat]; rfl
            have hge : ¬ (fill_write_buf (b :: rest) [STX]).1.length < SLH_WRITE_BUF_SZ := by
              intro hlt
              rw [hempty] at hl
              exact hl (by simp [hlt])
            rw [List.map_nil, with_end_marker_nil, with_end_marker_single, if_neg hge]
            rfl
          | cons q qs =>
            rw [with_end_marker_cons _ _ (by simp)]
            rfl

/-! ## Lemmas on the cursor invariant -/

theorem ring_ok_init (buf : List Nat) (n : Nat) (h0 : 0 < n) (h1 : n < 65536) :
    ring_ok (slh_agent_frame_init buf n) :=
  ⟨h0, h1, h0, h0⟩

/-- Whenever the copy loop ends, the cursors are below the capacity again; the
read cursor and the capacity are untouched. -/
theorem fetch_copy_ring_ok :
    ∀ (fuel : Nat) (ctx : slh_agent_frame_ctx) (ptr : List Nat) (sz : Int)
      (ctx1 : slh_agent_frame_ctx),
      ring_ok ctx → fetch_copy fuel ctx ptr sz = some ctx1 →
      ring_ok ctx1 ∧ ctx1.buffer_sz = ctx.buffer_sz ∧ ctx1.read_ptr = ctx.read_ptr := by
  intro fuel
  induction fuel with
  | zero => intro ctx ptr sz ctx1 _ h; simp [fetch_copy] at h
  | succ n ih =>
    intro ctx ptr sz ctx1 hok h
    rw [fetch_copy] at h
    by_cases hz : sz = 0
    · rw [if_pos hz] at h
      cases h
      exact ⟨hok, rfl, rfl⟩
    · rw [if_neg hz] at h
      obtain ⟨h0, h1, hr, hw⟩ := hok
      dsimp only at h
      have key := fun hk => ih _ _ _ ctx1 hk h
      exact key ⟨h0, h1, hr, Nat.mod_lt _ h0⟩

/-- The copy loop on the `ptr.length` bytes that `read` returned ends within
`ptr.length` iterations. -/
theorem fetch_copy_terminates :
    ∀ (fuel : Nat) (ctx : slh_agent_frame_ctx) (ptr : List Nat),
      ring_ok ctx → ptr.length < fuel →
      ∃ ctx1, fetch_copy fuel ctx ptr (ptr.length : Int) = some ctx1 := by
  intro fuel
  induction fuel with
  | zero => intro ctx ptr _ h; omega
  | succ fuel ih =>
    intro ctx ptr hok hfuel
    by_cases hnil : ptr.length = 0
    · exact ⟨ctx, by simp [fetch_copy, hnil]⟩
    · have hne : ¬ ((ptr.length : Int) = 0) := by omega
      obtain ⟨h0, h1, hr, hw⟩ := hok
      obtain ⟨len, hdef, hpos, hle⟩ : ∃ len : Nat,
          (if ((if ctx.read_ptr ≤ ctx.write_ptr then
                (((ctx.buffer_sz : Int) - ctx.write_ptr) % 65536).toNat
              else (((ctx.read_ptr : Int) - ctx.write_ptr) % 65536).toNat : Nat) : Int)
                > (ptr.length : Int)
            then ((ptr.length : Int) % 65536).toNat
            else (if ctx.read_ptr ≤ ctx.write_ptr then
                (((ctx.buffer_sz : Int) - ctx.write_ptr) % 65536).toNat
              else (((ctx.read_ptr : Int) - ctx.write_ptr) % 65536).toNat)) = len ∧
          1 ≤ len ∧ len ≤ ptr.length := by
        refine ⟨_, rfl, ?_, ?_⟩ <;> split <;> split <;> omega
      have hdl : (ptr.drop len).length = ptr.length - len := List.length_drop len ptr
      obtain ⟨ctx1, hc⟩ := ih
        { ctx with
          buffer := memcpy ctx.buffer ctx.write_ptr (ptr.take len)
          write_ptr := (ctx.write_ptr + len) % ctx.buffer_sz }
        (ptr.drop len) ⟨h0, h1, hr, Nat.mod_lt _ h0⟩ (by rw [hdl]; omega)
      refine ⟨ctx1, ?_⟩
      rw [fetch_copy]
      simp only [hne, if_false]
      rw [hdef]
      have hsz : (ptr.length : Int) - (len : Int) = ((ptr.drop len).length : Int) := by
        rw [hdl]; omega
      rw [hsz]
      exact hc

theorem fetch_ring_ok (ctx : slh_agent_frame_ctx) (hok : ring_ok ctx) (rx : rx_event)
    (res : Int) (ctx1 : slh_agent_frame_ctx)
    (h : slh_agent_frame_buf_fetch ctx rx = some (res, ctx1)) :
    ring_ok ctx1 ∧ ctx1.buffer_sz = ctx.buffer_sz := by
  unfold slh_agent_frame_buf_fetch at h
  by_cases hrem : fetch_buf_rem ctx = 0
  · simp only [hrem, if_true, Option.some.injEq, Prod.mk.injEq] at h
    rw [← h.2]; exact ⟨hok, rfl⟩
  · simp only [hrem, if_false] at h
    cases rx with
    | select_error errno =>
      simp only [Option.some.injEq, Prod.mk.injEq] at h
      rw [← h.2]; exact ⟨hok, rfl⟩
    | no_data =>
      simp only [Option.some.injEq, Prod.mk.injEq] at h
      rw [← h.2]; exact ⟨hok, rfl⟩
    | read_error errno =>
      simp only at h
      split at h
      · simp only [Option.some.injEq, Prod.mk.injEq] at h
        rw [← h.2]; exact ⟨hok, rfl⟩
      · rw [fetch_copy_would_block] at h
        simp at h
    | data bytes =>
      simp only at h
      cases hc : fetch_copy ((bytes.take (fetch_buf_rem ctx)).length + 1) ctx
          (bytes.take (fetch_buf_rem ctx)) ((bytes.take (fetch_buf_rem ctx)).length : Int) with
      | none => rw [hc] at h; simp at h
      | some c =>
        rw [hc] at h
        simp only [Option.map_some', Option.some.injEq, Prod.mk.injEq] at h
        obtain ⟨h1, h2, _⟩ := fetch_copy_ring_ok _ _ _ _ _ hok hc
        rw [← h.2]; exact ⟨h1, h2⟩

theorem fetch_data_returns (ctx : slh_agent_frame_ctx) (hok : ring_ok ctx) (bytes : List Nat) :
    ∃ res ctx1, slh_agent_frame_buf_fetch ctx (.data bytes) = some (res, ctx1) := by
  unfold slh_agent_frame_buf_fetch
  by_cases hrem : fetch_buf_rem ctx = 0
  · simp only [hrem, if_true]
    exact ⟨_, _, rfl⟩
  · simp only [hrem, if_false]
    obtain ⟨c, hc⟩ := fetch_copy_terminates ((bytes.take (fetch_buf_rem ctx)).length + 1) ctx
      (bytes.take (fetch_buf_rem ctx)) hok (Nat.lt_succ_self _)
    rw [hc]
    exact ⟨_, _, rfl⟩

theorem read_frame_body_ring_ok (ctx : slh_agent_frame_ctx) (hok : ring_ok ctx) :
    ∀ (max_sz rem offset frame_sz : Nat) (out : List Nat),
      ring_ok (read_frame_body ctx max_sz rem offset frame_sz out).2.1 ∧
        (read_frame_body ctx max_sz rem offset frame_sz out).2.1.buffer_sz = ctx.buffer_sz := by
  have hd : ∀ len, ring_ok (slh_agent_frame_buf_dequeue ctx len) ∧
      (slh_agent_frame_buf_dequeue ctx len).buffer_sz = ctx.buffer_sz :=
    fun len => ⟨ring_ok_dequeue ctx hok len, rfl⟩
  intro max_sz
  induction max_sz with
  | zero =>
    intro rem offset frame_sz out
    rw [read_frame_body]
    dsimp only
    repeat' split
    all_goals first
      | exact ⟨hok, rfl⟩
      | exact hd _
  | succ m ih =>
    intro rem offset frame_sz out
    rw [read_frame_body]
    dsimp only
    repeat' split
    all_goals first
      | exact ⟨hok, rfl⟩
      | exact hd _
      | exact ih _ _ _ _

theorem read_frame_ring_ok (ctx : slh_agent_frame_ctx) (hok : ring_ok ctx) (rx : rx_event)
    (max_sz : Nat) (r : Int × slh_agent_frame_ctx × List Nat)
    (h : slh_agent_read_frame ctx rx max_sz = some r) :
    ring_ok r.2.1 ∧ r.2.1.buffer_sz = ctx.buffer_sz := by
  unfold slh_agent_read_frame at h
  cases hf : slh_agent_frame_buf_fetch ctx rx with
  | none => rw [hf] at h; simp at h
  | some p =>
    obtain ⟨res, ctx1⟩ := p
    obtain ⟨hok1, hsz1⟩ := fetch_ring_ok ctx hok rx res ctx1 hf
    rw [hf] at h
    simp only at h
    have hok2 := ring_ok_dequeue ctx1 hok1
    split at h
    · split at h
      · cases h; exact ⟨hok2 _, hsz1⟩
      · cases h; exact ⟨hok2 _, hsz1⟩
    · cases h
      obtain ⟨h1, h2⟩ := read_frame_body_ring_ok _ (hok2 _) max_sz _ 1 0 []
      exact ⟨h1, by rw [h2]; exact hsz1⟩

theorem read_frame_data_returns (ctx : slh_agent_frame_ctx) (hok : ring_ok ctx)
    (bytes : List Nat) (max_sz : Nat) :
    ∃ r, slh_agent_read_frame ctx (.data bytes) max_sz = some r := by
  obtain ⟨res, ctx1, hf⟩ := fetch_data_returns ctx hok bytes
  unfold slh_agent_read_frame
  rw [hf]
  simp only
  split
  · split <;> exact ⟨_, rfl⟩
  · exact ⟨_, rfl⟩

theorem drop_frame_loop_ring_ok (ctx : slh_agent_frame_ctx) (hok : ring_ok ctx) :
    ∀ (rem num : Nat), ring_ok (drop_frame_loop ctx rem num).2 ∧
      (drop_frame_loop ctx rem num).2.buffer_sz = ctx.buffer_sz := by
  intro rem
  induction rem with
  | zero =>
    intro num
    rw [drop_frame_loop]
    exact ⟨⟨hok.1, hok.2.1, hok.1, hok.1⟩, rfl⟩
  | succ k ih =>
    intro num
    rw [drop_frame_loop]
    split
    · exact ⟨ring_ok_dequeue ctx hok _, rfl⟩
    · split
      · exact ⟨ring_ok_dequeue ctx hok _, rfl⟩
      · exact ih _

/-! ## Lemmas on the round trip of a short frame -/

theorem fill_write_buf_all (rptr : List Nat) :
    ∀ buf : List Nat, buf.length + (escape_bytes rptr).length < SLH_WRITE_BUF_SZ →
      fill_write_buf rptr buf = (buf ++ escape_bytes rptr, []) := by
  induction rptr with
  | nil => intro buf _; simp [fill_write_buf, escape_bytes]
  | cons b rest ih =>
    intro buf h
    unfold fill_write_buf
    unfold escape_bytes at h ⊢
    by_cases hb : b = STX ∨ b = ETX ∨ b = DLE
    · rw [if_pos hb] at h ⊢
      rw [if_pos hb]
      simp only [List.length_cons] at h
      have h2 : (buf ++ [DLE, escape_code b]).length + (escape_bytes rest).length
          < SLH_WRITE_BUF_SZ := by
        simp only [List.length_append, List.length_cons, List.length_nil]
        omega
      rw [if_neg (by omega), ih _ h2]
      simp
    · rw [if_neg hb] at h ⊢
      rw [if_neg hb]
      simp only [List.length_cons] at h
      have h2 : (buf ++ [b]).length + (escape_bytes rest).length < SLH_WRITE_BUF_SZ := by
        simp only [List.length_append, List.length_cons, List.length_nil]
        omega
      rw [if_neg (by omega), ih _ h2]
      simp

/-- A frame whose wire encoding has at most 255 bytes goes out as that encoding
in one chunk when the transport accepts it. -/
theorem write_frame_single_chunk (tx : Nat → List Nat → Int × Int) (type : Nat)
    (payload : List Nat) (hwire : (wire_frame type payload).length ≤ 255)
    (hacc : ((wire_frame type payload).length : Int) ≤ (tx 0 (wire_frame type payload)).1) :
    slh_agent_write_frame tx { type := type, payload := payload } (1 + payload.length) =
      some (0, [wire_frame type payload]) := by
  rw [length_wire_frame] at hwire
  have hfill := fill_write_buf_all (type :: payload) [STX]
    (by simp only [List.length_singleton, SLH_WRITE_BUF_SZ]; omega)
  have htake : (type :: payload).take (1 + payload.length) = type :: payload :=
    List.take_of_length_le (by simp only [List.length_cons]; omega)
  have hw : [STX] ++ escape_bytes (type :: payload) ++ [ETX] = wire_frame type payload := by
    simp [wire_frame]
  have hlen : ([STX] ++ escape_bytes (type :: payload)).length < SLH_WRITE_BUF_SZ := by
    simp only [List.length_append, List.length_singleton, SLH_WRITE_BUF_SZ]; omega
  unfold slh_agent_write_frame
  rw [htake, Nat.add_comm 1 payload.length, write_chunks]
  simp only [Bool.not_false, if_true, hfill, List.isEmpty_nil, Bool.true_and, hlen,
    decide_True, hw, not_lt.mpr hacc, if_false, List.length_nil, List.nil_append,
    Bool.true_or]
  cases payload.length <;> simp [write_chunks]


/-! ## Settled properties -/

set_option maxRecDepth 100000

/-- The ingest step on the 257-byte wire frame of type `FS` with 254 zero bytes
of payload, arriving in an empty 512-byte ring buffer. -/
theorem fetch_wire_255 :
    slh_agent_frame_buf_fetch (slh_agent_frame_init (List.replicate 512 0) 512)
        (.data (STX :: FS :: List.replicate 254 0 ++ [ETX])) =
      some (slh_agent_frame_buf_waiting
          (slh_agent_frame_ctx.mk
            (STX :: FS :: List.replicate 254 0 ++ [ETX] ++ List.replicate 255 0) 512 0 257),
        slh_agent_frame_ctx.mk
          (STX :: FS :: List.replicate 254 0 ++ [ETX] ++ List.replicate 255 0) 512 0 257) ∧
    unread (slh_agent_frame_ctx.mk
        (STX :: FS :: List.replicate 254 0 ++ [ETX] ++ List.replicate 255 0) 512 0 257) =
      STX :: (FS :: List.replicate 254 0) ++ [ETX] := by
  constructor <;> decide!

/-- The ingest step on the 258-byte wire frame of type `FS` with 255 zero bytes
of payload, arriving in an empty 512-byte ring buffer. -/
theorem fetch_wire_256 :
    slh_agent_frame_buf_fetch (slh_agent_frame_init (List.replicate 512 0) 512)
        (.data (STX :: FS :: List.replicate 255 0 ++ [ETX])) =
      some (slh_agent_frame_buf_waiting
          (slh_agent_frame_ctx.mk
            (STX :: FS :: List.replicate 255 0 ++ [ETX] ++ List.replicate 254 0) 512 0 258),
        slh_agent_frame_ctx.mk
          (STX :: FS :: List.replicate 255 0 ++ [ETX] ++ List.replicate 254 0) 512 0 258) ∧
    unread (slh_agent_frame_ctx.mk
        (STX :: FS :: List.replicate 255 0 ++ [ETX] ++ List.replicate 254 0) 512 0 258) =
      STX :: (FS :: List.replicate 254 0) ++ [0, ETX] := by
  constructor <;> decide!

theorem plain_fs_zeros : ∀ b ∈ FS :: List.replicate 254 0, b ≠ ETX ∧ b ≠ STX ∧ b ≠ DLE := by
  intro b hb
  rcases List.mem_cons.mp hb with h | h
  · subst h; decide
  · rw [List.eq_of_mem_replicate h]; decide

/-- C1 (round trip, evaluated where it fails): the frame with type `FS` and a
payload of 254 zero bytes is written as the well-formed 257-byte wire frame
(a full 256-byte chunk, then the end marker alone); reading those bytes from an
empty 512-byte ring buffer with `max_sz = 255` returns `-EBADMSG` and consumes
nothing, instead of returning 255 with the original bytes. -/
theorem round_trip_fails_at_255 :
    slh_agent_write_frame tx_accept_all { type := FS, payload := List.replicate 254 0 } 255
        = some (0, [STX :: FS :: List.replicate 254 0, [ETX]]) ∧
      slh_agent_read_frame (slh_agent_frame_init (List.replicate 512 0) 512)
          (.data (STX :: FS :: List.replicate 254 0 ++ [ETX])) 255
        = some (-EBADMSG,
            slh_agent_frame_ctx.mk
              (STX :: FS :: List.replicate 254 0 ++ [ETX] ++ List.replicate 255 0) 512 0 257,
            FS :: List.replicate 254 0) := by
  constructor
  · decide!
  · exact read_frame_offset_wraps _ _ _ 255 (FS :: List.replicate 254 0) [ETX]
      fetch_wire_255.1 (by unfold ring_ok; decide) fetch_wire_255.2 plain_fs_zeros
      (by simp) (by decide)

/-- C2 (wire format, evaluated where it fails): for the 256-byte frame with type
`FS` and 255 zero bytes of payload the writer passes two chunks to the
transport, and the second chunk begins with a start marker too, so the
concatenation is not the single well-formed wire frame. -/
theorem write_frame_second_chunk_has_stx :
    slh_agent_write_frame tx_accept_all { type := FS, payload := List.replicate 255 0 } 256
        = some (0, [STX :: FS :: List.replicate 254 0, [STX, 0, ETX]]) ∧
      (STX :: FS :: List.replicate 254 0) ++ [STX, 0, ETX]
        ≠ wire_frame FS (List.replicate 255 0) := by
  constructor
  · decide!
  · decide!

/-- C3 (escape completeness): for every type byte `t` that is not a marker, on a
transport that accepts the nine bytes, `slh_agent_write_frame` applied to type
`t` and payload `[0x02, 0x03, 0x10]` passes exactly one chunk to `write`, the
nine bytes `0x02, t, 0x10, 0x62, 0x10, 0x63, 0x10, 0x70, 0x03`, and returns 0. -/
theorem write_frame_escape_completeness (tx : Nat → List Nat → Int × Int) (t : Nat)
    (ht : t ≠ STX ∧ t ≠ ETX ∧ t ≠ DLE)
    (hacc : (9 : Int) ≤ (tx 0 [STX, t, DLE, E_STX, DLE, E_ETX, DLE, E_DLE, ETX]).1) :
    slh_agent_write_frame tx { type := t, payload := [STX, ETX, DLE] } 4
      = some (0, [[0x02, t, 0x10, 0x62, 0x10, 0x63, 0x10, 0x70, 0x03]]) := by
  obtain ⟨h2, h3, h16⟩ := ht
  simp only [STX, ETX, DLE, E_STX, E_ETX, E_DLE] at h2 h3 h16 hacc ⊢
  have hlt : ¬ (tx 0 [2, t, 16, 98, 16, 99, 16, 112, 3]).1 < 9 := not_lt.mpr hacc
  simp [slh_agent_write_frame, write_chunks, fill_write_buf, escape_code, h2, h3, h16, hlt,
    SLH_WRITE_BUF_SZ, STX, ETX, DLE, E_STX, E_ETX, E_DLE]

/-- C3 witness: the acknowledgement type `ACK` on the transport that accepts everything. -/
theorem write_frame_escape_completeness_witness :
    (ACK ≠ STX ∧ ACK ≠ ETX ∧ ACK ≠ DLE) ∧
      slh_agent_write_frame tx_accept_all { type := ACK, payload := [STX, ETX, DLE] } 4
        = some (0, [[0x02, ACK, 0x10, 0x62, 0x10, 0x63, 0x10, 0x70, 0x03]]) :=
  ⟨by decide, write_frame_escape_completeness tx_accept_all ACK (by decide) (by decide)⟩

/-- C4 counterexample: one garbage byte followed by the well-formed frame
`STX, ACK, ETX` arrives in an empty 16-byte ring buffer; the first
`slh_agent_read_frame` call returns the frame (size 1, type `ACK`) and not
`-EBADMSG`, and the next call finds the buffer empty and returns 0. -/
theorem resync_first_call_returns_frame :
    slh_agent_read_frame (slh_agent_frame_init (List.replicate 16 0) 16)
        (.data [0, STX, ACK, ETX]) 16
      = some (1, (slh_agent_frame_ctx.mk ([0, STX, ACK, ETX] ++ List.replicate 12 0) 16 4 4), [ACK]) ∧
    (slh_agent_read_frame (slh_agent_frame_init (List.replicate 16 0) 16)
        (.data [0, STX, ACK, ETX]) 16).map (fun x => x.1) ≠ some (-EBADMSG) ∧
    slh_agent_read_frame (slh_agent_frame_ctx.mk ([0, STX, ACK, ETX] ++ List.replicate 12 0) 16 4 4) .no_data 16
      = some (0, (slh_agent_frame_ctx.mk ([0, STX, ACK, ETX] ++ List.replicate 12 0) 16 4 4), []) := by
  refine ⟨?_, ?_, ?_⟩ <;> decide

/-- C4 as amended: when the ingest step of `slh_agent_read_frame` leaves the
context `ctx1` and reports its occupied count, and the unread content of `ctx1`
is a run of at most 255 garbage bytes without a start marker, then a
well-formed wire frame of at most 255 bytes, then `rest`, the call with
`max_sz` at least 1 + payload length returns 1 + payload length, stores exactly
the type and the payload, and consumes the garbage and the frame: the unread
content afterwards is `rest`, write cursor and storage are untouched. -/
theorem read_frame_skips_garbage_and_returns_frame (ctx ctx1 : slh_agent_frame_ctx)
    (rx : rx_event) (max_sz : Nat) (garbage : List Nat) (type : Nat)
    (payload rest : List Nat)
    (hfetch : slh_agent_frame_buf_fetch ctx rx =
      some (slh_agent_frame_buf_waiting ctx1, ctx1))
    (hok : ring_ok ctx1)
    (hcontent : unread ctx1 = garbage ++ wire_frame type payload ++ rest)
    (hg : ∀ b ∈ garbage, b ≠ STX)
    (hglen : garbage.length ≤ 255)
    (hwlen : (wire_frame type payload).length ≤ 255)
    (hmax : 1 + payload.length ≤ max_sz) :
    ∃ ctx2, slh_agent_read_frame ctx rx max_sz =
        some (((1 + payload.length : Nat) : Int), ctx2, type :: payload) ∧
      unread ctx2 = rest ∧ ctx2.write_ptr = ctx1.write_ptr ∧ ctx2.buffer = ctx1.buffer ∧
      ctx2.buffer_sz = ctx1.buffer_sz :=
  read_frame_garbage_then_frame ctx ctx1 rx max_sz garbage type payload rest hfetch hok
    hcontent hg hglen hwlen hmax

/-- C4 witness: two garbage bytes, then the frame of type `FS` with payload
`[0x02, 0x41]`, then the first byte of a following frame, arriving in an
empty 16-byte ring buffer. -/
theorem read_frame_skips_garbage_and_returns_frame_witness :
    ∃ ctx2, slh_agent_read_frame (slh_agent_frame_init (List.replicate 16 0) 16)
        (.data [0x00, 0x03, STX, FS, DLE, E_STX, 0x41, ETX, STX]) 3 =
        some (((1 + [STX, 0x41].length : Nat) : Int), ctx2, FS :: [STX, 0x41]) ∧
      unread ctx2 = [STX] ∧
      ctx2.write_ptr = 9 ∧
      ctx2.buffer = [0x00, 0x03, STX, FS, DLE, E_STX, 0x41, ETX, STX] ++ List.replicate 7 0 ∧
      ctx2.buffer_sz = 16 :=
  read_frame_skips_garbage_and_returns_frame
    (slh_agent_frame_init (List.replicate 16 0) 16)
    (slh_agent_frame_ctx.mk
      ([0x00, 0x03, STX, FS, DLE, E_STX, 0x41, ETX, STX] ++ List.replicate 7 0) 16 0 9)
    (.data [0x00, 0x03, STX, FS, DLE, E_STX, 0x41, ETX, STX]) 3
    [0x00, 0x03] FS [STX, 0x41] [STX]
    (by decide) (by unfold ring_ok; decide) (by decide) (by decide) (by decide) (by decide)
    (by decide)


/-- C5 (buffered frame without new data, evaluated where it fails): with the
complete frame `STX, ACK, ETX` at the read cursor and no data ready on the
transport, `slh_agent_frame_buf_fetch` returns 0 and `slh_agent_read_frame`
returns 0 without touching the cursors; and after two frames were ingested by
one read, the first call returns the first frame and the second call, with no
further input, returns 0 instead of the second frame. -/
theorem buffered_frame_not_delivered :
    slh_agent_frame_buf_fetch
        (slh_agent_frame_ctx.mk ([STX, ACK, ETX] ++ List.replicate 13 0) 16 0 3) .no_data
      = some (0, slh_agent_frame_ctx.mk ([STX, ACK, ETX] ++ List.replicate 13 0) 16 0 3) ∧
    slh_agent_read_frame
        (slh_agent_frame_ctx.mk ([STX, ACK, ETX] ++ List.replicate 13 0) 16 0 3) .no_data 16
      = some (0, slh_agent_frame_ctx.mk ([STX, ACK, ETX] ++ List.replicate 13 0) 16 0 3, []) ∧
    slh_agent_read_frame (slh_agent_frame_init (List.replicate 16 0) 16)
        (.data [STX, ACK, ETX, STX, NAK, ETX]) 16
      = some (1, slh_agent_frame_ctx.mk
          ([STX, ACK, ETX, STX, NAK, ETX] ++ List.replicate 10 0) 16 3 6, [ACK]) ∧
    slh_agent_read_frame
        (slh_agent_frame_ctx.mk ([STX, ACK, ETX, STX, NAK, ETX] ++ List.replicate 10 0) 16 3 6)
        .no_data 16
      = some (0, slh_agent_frame_ctx.mk
          ([STX, ACK, ETX, STX, NAK, ETX] ++ List.replicate 10 0) 16 3 6, []) := by
  refine ⟨?_, ?_, ?_, ?_⟩ <;> decide

/-- C6 (incomplete frame, evaluated where it fails): the two bytes `STX, FS`
arrive in an empty, zero-filled 16-byte ring buffer; with `max_sz = 8` the
reader goes on past the occupied region, stores seven stale zero bytes after
the type byte and returns `-EMSGSIZE` instead of 0.  In an 8-byte ring buffer
that already delivered the frame `STX, FS, 0x41, 0x42, 0x43, ETX`, the
incomplete frame `STX, FS, 0x44` is returned as a complete 6-byte frame made
of stale bytes. -/
theorem incomplete_frame_reads_stale_bytes :
    slh_agent_read_frame (slh_agent_frame_init (List.replicate 16 0) 16) (.data [STX, FS]) 8
      = some (-EMSGSIZE, slh_agent_frame_ctx.mk ([STX, FS] ++ List.replicate 14 0) 16 0 2,
          [FS, 0, 0, 0, 0, 0, 0, 0]) ∧
    slh_agent_read_frame (slh_agent_frame_init (List.replicate 8 0) 8)
        (.data [STX, FS, 0x41, 0x42, 0x43, ETX]) 8
      = some (4, slh_agent_frame_ctx.mk [STX, FS, 0x41, 0x42, 0x43, ETX, 0, 0] 8 6 6,
          [FS, 0x41, 0x42, 0x43]) ∧
    slh_agent_read_frame (slh_agent_frame_ctx.mk [STX, FS, 0x41, 0x42, 0x43, ETX, 0, 0] 8 6 6)
        (.data [STX, FS, 0x44]) 8
      = some (6, slh_agent_frame_ctx.mk [0x44, FS, 0x41, 0x42, 0x43, ETX, STX, FS] 8 1 1,
          [FS, 0x44, FS, 0x41, 0x42, 0x43]) := by
  refine ⟨?_, ?_, ?_⟩ <;> decide!

/-- C7 (no start marker, evaluated where it fails): 256 zero bytes arrive in an
empty 512-byte ring buffer; `slh_agent_read_frame` returns 0 and consumes
nothing (read cursor 0, write cursor 256), while 255 such bytes are consumed
with `-EBADMSG`. -/
theorem garbage_of_256_bytes_not_consumed :
    slh_agent_read_frame (slh_agent_frame_init (List.replicate 512 0) 512)
        (.data (List.replicate 256 0)) 16
      = some (0, slh_agent_frame_ctx.mk (List.replicate 512 0) 512 0 256, []) ∧
    slh_agent_read_frame (slh_agent_frame_init (List.replicate 512 0) 512)
        (.data (List.replicate 255 0)) 16
      = some (-EBADMSG, slh_agent_frame_ctx.mk (List.replicate 512 0) 512 255 255, []) := by
  constructor <;> decide!

/-- C8 (documented return codes, evaluated where it fails): on an empty buffer
with nothing to read, and on a buffer that holds only a start marker,
`slh_agent_read_frame` returns 0, which is not `-EWOULDBLOCK`; 0 is also what
it returns for the complete empty frame `STX, ETX`. -/
theorem no_frame_returns_zero :
    slh_agent_read_frame (slh_agent_frame_init (List.replicate 16 0) 16) .no_data 16
      = some (0, slh_agent_frame_init (List.replicate 16 0) 16, []) ∧
    slh_agent_read_frame (slh_agent_frame_init (List.replicate 16 0) 16) (.data [STX]) 16
      = some (0, slh_agent_frame_ctx.mk ([STX] ++ List.replicate 15 0) 16 0 1, []) ∧
    slh_agent_read_frame (slh_agent_frame_init (List.replicate 16 0) 16) (.data [STX, ETX]) 16
      = some (0, slh_agent_frame_ctx.mk ([STX, ETX] ++ List.replicate 14 0) 16 2 2, []) ∧
    (0 : Int) ≠ -EWOULDBLOCK := by
  refine ⟨?_, ?_, ?_, ?_⟩ <;> decide

/-- C9 (size limit, evaluated where it fails): the well-formed wire frame of
type `FS` with 255 zero bytes of payload (unescaped length 256) arrives in an
empty 512-byte ring buffer.  With `max_sz = 255` the reader returns `-EBADMSG`,
not `-EMSGSIZE`; with `max_sz = 256` it returns `-EBADMSG` too instead of the
frame.  Nothing is consumed in either case. -/
theorem long_frame_size_limit_fails :
    slh_agent_read_frame (slh_agent_frame_init (List.replicate 512 0) 512)
        (.data (STX :: FS :: List.replicate 255 0 ++ [ETX])) 255
      = some (-EBADMSG,
          slh_agent_frame_ctx.mk
            (STX :: FS :: List.replicate 255 0 ++ [ETX] ++ List.replicate 254 0) 512 0 258,
          FS :: List.replicate 254 0) ∧
    slh_agent_read_frame (slh_agent_frame_init (List.replicate 512 0) 512)
        (.data (STX :: FS :: List.replicate 255 0 ++ [ETX])) 256
      = some (-EBADMSG,
          slh_agent_frame_ctx.mk
            (STX :: FS :: List.replicate 255 0 ++ [ETX] ++ List.replicate 254 0) 512 0 258,
          FS :: List.replicate 254 0) ∧
    -EBADMSG ≠ -EMSGSIZE := by
  refine ⟨?_, ?_, by decide⟩
  · exact read_frame_offset_wraps _ _ _ 255 (FS :: List.replicate 254 0) [0, ETX]
      fetch_wire_256.1 (by unfold ring_ok; decide) fetch_wire_256.2 plain_fs_zeros
      (by simp) (by decide)
  · exact read_frame_offset_wraps _ _ _ 256 (FS :: List.replicate 254 0) [0, ETX]
      fetch_wire_256.1 (by unfold ring_ok; decide) fetch_wire_256.2 plain_fs_zeros
      (by simp) (by decide)

/-- C10 (transport read errors, evaluated where it fails): the readiness check
fails with errno 9 while the frame `STX, ACK, ETX` is buffered;
`slh_agent_frame_buf_fetch` returns -9, but `slh_agent_read_frame` returns 1 (a
frame of type `ACK`) and consumes the three bytes.  The same happens when the
read fails with errno 5. -/
theorem transport_error_not_propagated :
    slh_agent_frame_buf_fetch
        (slh_agent_frame_ctx.mk ([STX, ACK, ETX] ++ List.replicate 13 0) 16 0 3)
        (.select_error 9)
      = some (-9, slh_agent_frame_ctx.mk ([STX, ACK, ETX] ++ List.replicate 13 0) 16 0 3) ∧
    slh_agent_read_frame
        (slh_agent_frame_ctx.mk ([STX, ACK, ETX] ++ List.replicate 13 0) 16 0 3)
        (.select_error 9) 16
      = some (1, slh_agent_frame_ctx.mk ([STX, ACK, ETX] ++ List.replicate 13 0) 16 3 3,
          [ACK]) ∧
    slh_agent_read_frame
        (slh_agent_frame_ctx.mk ([STX, ACK, ETX] ++ List.replicate 13 0) 16 0 3)
        (.read_error 5) 16
      = some (1, slh_agent_frame_ctx.mk ([STX, ACK, ETX] ++ List.replicate 13 0) 16 3 3,
          [ACK]) := by
  refine ⟨?_, ?_, ?_⟩ <;> decide

/-- C11 (short writes, evaluated where it fails): the transport accepts one
byte of the three-byte chunk `STX, ACK, ETX` and leaves `errno` at 0;
`slh_agent_write_frame` returns 0, the value documented for success.  The same
happens on the first chunk of a two-chunk frame: the 256-byte chunk is written
one byte short with `errno` 0, no further write is issued, and the result is 0
although the frame was not sent.  With `errno` 5 the result is -5. -/
theorem short_write_with_errno_zero_returns_zero :
    slh_agent_write_frame (fun _ _ => (1, 0)) { type := ACK, payload := [] } 1
      = some (0, [[STX, ACK, ETX]]) ∧
    slh_agent_write_frame (fun _ chunk => ((chunk.length : Int) - 1, 0))
        { type := FS, payload := List.replicate 255 0 } 256
      = some (0, [STX :: FS :: List.replicate 254 0]) ∧
    slh_agent_write_frame (fun _ _ => (1, 5)) { type := ACK, payload := [] } 1
      = some (-5, [[STX, ACK, ETX]]) := by
  refine ⟨?_, ?_, ?_⟩ <;> decide!

/-- C12 (occupied/free partition, shown to fail everywhere): for every context
with capacity `N` between 1 and 65535, both cursors below `N` and read cursor
different from write cursor, the count of `slh_agent_frame_buf_waiting` plus the
16-bit `buf_rem` of `slh_agent_frame_buf_fetch` is not `N`: it is 65536 when the
read cursor is below the write cursor, and `2 * N` or `2 * N - 65536` when the
write cursor is below the read cursor. -/
theorem waiting_plus_buf_rem_ne_capacity (ctx : slh_agent_frame_ctx) (h : ring_ok ctx)
    (hne : ctx.read_ptr ≠ ctx.write_ptr) :
    slh_agent_frame_buf_waiting ctx + (fetch_buf_rem ctx : Int) ≠ (ctx.buffer_sz : Int) ∧
      (ctx.read_ptr < ctx.write_ptr →
        slh_agent_frame_buf_waiting ctx + (fetch_buf_rem ctx : Int) = 65536) ∧
      (ctx.write_ptr < ctx.read_ptr →
        slh_agent_frame_buf_waiting ctx + (fetch_buf_rem ctx : Int) = 2 * ctx.buffer_sz ∨
        slh_agent_frame_buf_waiting ctx + (fetch_buf_rem ctx : Int)
          = 2 * ctx.buffer_sz - 65536) := by
  obtain ⟨h0, h1, hr, hw⟩ := h
  unfold slh_agent_frame_buf_waiting fetch_buf_rem
  refine ⟨?_, ?_, ?_⟩
  · split <;> split <;> omega
  · intro hlt
    rw [if_pos (Nat.le_of_lt hlt), if_neg (by omega)]
    omega
  · intro hlt
    rw [if_neg (by omega), if_pos (Nat.le_of_lt hlt)]
    omega

/-- C12 on a concrete state: a 16-byte ring buffer holding 3 bytes at offsets
0..2; the occupied count is 3 and `buf_rem` is 65533, so their sum is 65536
and not 16. -/
theorem waiting_plus_buf_rem_ne_capacity_witness :
    ring_ok (slh_agent_frame_ctx.mk ([STX, ACK, ETX] ++ List.replicate 13 0) 16 0 3) ∧
    slh_agent_frame_buf_waiting
        (slh_agent_frame_ctx.mk ([STX, ACK, ETX] ++ List.replicate 13 0) 16 0 3) +
      (fetch_buf_rem
        (slh_agent_frame_ctx.mk ([STX, ACK, ETX] ++ List.replicate 13 0) 16 0 3) : Int)
      ≠ ((16 : Nat) : Int) :=
  ⟨by unfold ring_ok; decide,
   (waiting_plus_buf_rem_ne_capacity
      (slh_agent_frame_ctx.mk ([STX, ACK, ETX] ++ List.replicate 13 0) 16 0 3)
      (by unfold ring_ok; decide) (by decide)).1⟩

/-- C13 (ingest, evaluated where it fails): an 8-byte ring buffer holds the
unread bytes 1, 2, 3, 4 at offsets 0..3 (read cursor 0, write cursor 4), so 4
bytes are occupied and `buf_rem` is 65532.  The transport has 8 bytes ready;
`slh_agent_frame_buf_fetch` stores all 8, the last four over the unread bytes:
the unread content afterwards is 9, 10, 11, 12 and the occupied count is still
4.  On the empty 8-byte buffer, 8 ready bytes are all stored, the write cursor
returns to the read cursor and the occupied count is 0. -/
theorem fetch_overwrites_unread_bytes :
    unread (slh_agent_frame_ctx.mk [1, 2, 3, 4, 0, 0, 0, 0] 8 0 4) = [1, 2, 3, 4] ∧
    fetch_buf_rem (slh_agent_frame_ctx.mk [1, 2, 3, 4, 0, 0, 0, 0] 8 0 4) = 65532 ∧
    slh_agent_frame_buf_fetch (slh_agent_frame_ctx.mk [1, 2, 3, 4, 0, 0, 0, 0] 8 0 4)
        (.data [5, 6, 7, 8, 9, 10, 11, 12])
      = some (4, slh_agent_frame_ctx.mk [9, 10, 11, 12, 5, 6, 7, 8] 8 0 4) ∧
    unread (slh_agent_frame_ctx.mk [9, 10, 11, 12, 5, 6, 7, 8] 8 0 4) = [9, 10, 11, 12] ∧
    slh_agent_frame_buf_fetch (slh_agent_frame_init (List.replicate 8 0) 8)
        (.data [1, 2, 3, 4, 5, 6, 7, 8])
      = some (0, slh_agent_frame_ctx.mk [1, 2, 3, 4, 5, 6, 7, 8] 8 0 0) := by
  refine ⟨?_, ?_, ?_, ?_, ?_⟩ <;> decide!

/-- C14 (consume): for every context with capacity `N` between 1 and 65535 and
both cursors below `N`, and for every `len`, `slh_agent_frame_buf_dequeue` sets
the read cursor to (read cursor + min(len, occupied)) mod `N`, leaves the write
cursor, the storage and the capacity unchanged, reduces the occupied count by
exactly min(len, occupied), and the unread content loses exactly its first
min(len, occupied) bytes. -/
theorem dequeue_consumes_min (ctx : slh_agent_frame_ctx) (h : ring_ok ctx) (len : Nat) :
    (slh_agent_frame_buf_dequeue ctx len).read_ptr =
        (ctx.read_ptr + min len (occupied ctx)) % ctx.buffer_sz ∧
      (slh_agent_frame_buf_dequeue ctx len).write_ptr = ctx.write_ptr ∧
      (slh_agent_frame_buf_dequeue ctx len).buffer = ctx.buffer ∧
      (slh_agent_frame_buf_dequeue ctx len).buffer_sz = ctx.buffer_sz ∧
      occupied (slh_agent_frame_buf_dequeue ctx len) =
        occupied ctx - min len (occupied ctx) ∧
      unread (slh_agent_frame_buf_dequeue ctx len) =
        (unread ctx).drop (min len (occupied ctx)) := by
  have hle : min len (occupied ctx) ≤ occupied ctx := Nat.min_le_right _ _
  rw [dequeue_clamp ctx h len]
  refine ⟨?_, ?_, ?_, ?_, occupied_dequeue ctx h _ hle, unread_dequeue ctx h _ hle⟩ <;>
    rw [dequeue_eq ctx h _ hle]

/-- C14 on a concrete state: a 16-byte ring buffer with read cursor 14 and write
cursor 3 (5 bytes occupied, wrapping); consuming 9 removes the 5 bytes and
leaves the read cursor at 3. -/
theorem dequeue_consumes_min_witness :
    ring_ok (slh_agent_frame_ctx.mk (List.range 16) 16 14 3) ∧
    (slh_agent_frame_buf_dequeue (slh_agent_frame_ctx.mk (List.range 16) 16 14 3) 9).read_ptr
      = (14 + min 9 (occupied (slh_agent_frame_ctx.mk (List.range 16) 16 14 3))) % 16 ∧
    (slh_agent_frame_buf_dequeue (slh_agent_frame_ctx.mk (List.range 16) 16 14 3) 9).read_ptr
      = 3 :=
  ⟨by unfold ring_ok; decide,
   (dequeue_consumes_min (slh_agent_frame_ctx.mk (List.range 16) 16 14 3)
      (by unfold ring_ok; decide) 9).1,
   by decide⟩

/-- C15 (`slh_agent_drop_frame`): for every context with capacity between 1 and
65535 and both cursors below it.  If the unread content is `pre`, an end
marker, `post`, with no marker in `pre`, the call returns `pre.length + 1` and
consumes exactly the bytes through the end marker (`post` is what remains).  If
it is `pre`, a start marker, `post`, the call returns `pre.length` and consumes
exactly `pre` (the start marker is at the read cursor afterwards).  If the
unread content holds no marker, the call returns the occupied count and resets
both cursors to zero.  In each case the occupied count drops by the value
returned. -/
theorem drop_frame_spec (ctx : slh_agent_frame_ctx) (h : ring_ok ctx) :
    (∀ pre post : List Nat, unread ctx = pre ++ ETX :: post →
      (∀ b ∈ pre, b ≠ ETX ∧ b ≠ STX) →
      (slh_agent_drop_frame ctx).1 = ((pre.length + 1 : Nat) : Int) ∧
        unread (slh_agent_drop_frame ctx).2 = post ∧
        (slh_agent_drop_frame ctx).2 =
          { ctx with read_ptr := (ctx.read_ptr + (pre.length + 1)) % ctx.buffer_sz } ∧
        (occupied (slh_agent_drop_frame ctx).2 : Int) =
          occupied ctx - (slh_agent_drop_frame ctx).1) ∧
    (∀ pre post : List Nat, unread ctx = pre ++ STX :: post →
      (∀ b ∈ pre, b ≠ ETX ∧ b ≠ STX) →
      (slh_agent_drop_frame ctx).1 = (pre.length : Int) ∧
        unread (slh_agent_drop_frame ctx).2 = STX :: post ∧
        (slh_agent_drop_frame ctx).2 =
          { ctx with read_ptr := (ctx.read_ptr + pre.length) % ctx.buffer_sz } ∧
        (occupied (slh_agent_drop_frame ctx).2 : Int) =
          occupied ctx - (slh_agent_drop_frame ctx).1) ∧
    ((∀ b ∈ unread ctx, b ≠ ETX ∧ b ≠ STX) →
      (slh_agent_drop_frame ctx).1 = (occupied ctx : Int) ∧
        (slh_agent_drop_frame ctx).2 = { ctx with read_ptr := 0, write_ptr := 0 } ∧
        (occupied (slh_agent_drop_frame ctx).2 : Int) =
          occupied ctx - (slh_agent_drop_frame ctx).1) := by
  refine ⟨?_, ?_, ?_⟩
  · intro pre post hcontent hpre
    obtain ⟨hloop, hm, hocc, hlt⟩ := drop_frame_at_marker ctx h pre post ETX hcontent hpre
    have hle : pre.length + 1 ≤ occupied ctx := by omega
    rw [hloop, drop_frame_loop_etx ctx _ _ (by omega) hlt hm]
    refine ⟨rfl, ?_, dequeue_eq ctx h _ hle, ?_⟩
    · show unread (slh_agent_frame_buf_dequeue ctx (pre.length + 1)) = post
      rw [unread_dequeue ctx h _ hle, hcontent]
      have e : pre ++ ETX :: post = (pre ++ [ETX]) ++ post := by simp
      rw [e, show pre.length + 1 = (pre ++ [ETX]).length by simp, List.drop_left]
    · show (occupied (slh_agent_frame_buf_dequeue ctx (pre.length + 1)) : Int) =
        occupied ctx - ((pre.length + 1 : Nat) : Int)
      rw [occupied_dequeue ctx h _ hle]
      omega
  · intro pre post hcontent hpre
    obtain ⟨hloop, hm, hocc, hlt⟩ := drop_frame_at_marker ctx h pre post STX hcontent hpre
    have hle : pre.length ≤ occupied ctx := by omega
    rw [hloop, drop_frame_loop_stx ctx _ _ (by omega) hlt hm]
    refine ⟨rfl, ?_, dequeue_eq ctx h _ hle, ?_⟩
    · show unread (slh_agent_frame_buf_dequeue ctx pre.length) = STX :: post
      rw [unread_dequeue ctx h _ hle, hcontent, List.drop_left]
    · show (occupied (slh_agent_frame_buf_dequeue ctx pre.length) : Int) =
        occupied ctx - (pre.length : Int)
      rw [occupied_dequeue ctx h _ hle]
      omega
  · intro hall
    obtain ⟨hw, hlt⟩ := waiting_of_ring_ok ctx h
    have hN := h.2.1
    have hl := length_unread ctx
    rw [drop_frame_rem ctx h,
      drop_frame_loop_skip ctx (unread ctx) (occupied ctx) 0 hall (reads_at_unread ctx)
        (by omega) (by omega)]
    rw [hl, Nat.sub_self, Nat.zero_add]
    refine ⟨rfl, rfl, ?_⟩
    show (occupied { ctx with read_ptr := 0, write_ptr := 0 } : Int) =
      occupied ctx - (occupied ctx : Int)
    simp [occupied, slh_agent_frame_buf_waiting]

/-- C15 on a concrete state: an 8-byte ring buffer with read cursor 6 and write
cursor 3 whose unread content is `0x41, 0x42, ETX, STX, 0x43`; the call returns
3 and leaves `STX, 0x43` unread. -/
theorem drop_frame_spec_witness :
    ring_ok (slh_agent_frame_ctx.mk [ETX, STX, 0x43, 0, 0, 0, 0x41, 0x42] 8 6 3) ∧
    (slh_agent_drop_frame (slh_agent_frame_ctx.mk [ETX, STX, 0x43, 0, 0, 0, 0x41, 0x42] 8 6 3)).1
      = (([0x41, 0x42].length + 1 : Nat) : Int) ∧
    unread (slh_agent_drop_frame
      (slh_agent_frame_ctx.mk [ETX, STX, 0x43, 0, 0, 0, 0x41, 0x42] 8 6 3)).2
      = [STX, 0x43] :=
  ⟨by unfold ring_ok; decide,
   ((drop_frame_spec (slh_agent_frame_ctx.mk [ETX, STX, 0x43, 0, 0, 0, 0x41, 0x42] 8 6 3)
      (by unfold ring_ok; decide)).1 [0x41, 0x42] [STX, 0x43] (by decide) (by decide)).1,
   ((drop_frame_spec (slh_agent_frame_ctx.mk [ETX, STX, 0x43, 0, 0, 0, 0x41, 0x42] 8 6 3)
      (by unfold ring_ok; decide)).1 [0x41, 0x42] [STX, 0x43] (by decide) (by decide)).2.1⟩

/-- C16 (session-info encoding): for every TAP context with a 6-byte MAC, a
NUL-terminated name in its 16-byte name field, an MTU below 65536 and an
interface index in the 32-bit unsigned range, and for every previous content
of the local storage, `slh_agent_write_device_detail_frame` builds the frame
with type 0x01 and payload MAC, MTU in 2 bytes big-endian, interface index in
4 bytes big-endian, one byte with the name length, the name bytes; the frame
size is 14 + name length, and this frame and size are what is passed to
`slh_agent_write_frame`. -/
theorem device_detail_frame_encoding (tx : Nat → List Nat → Int × Int)
    (tap : slh_agent_tap_ctx) (raw : List Nat)
    (hmac : tap.mac.length = SLH_TAP_MAC_SZ)
    (hname : tap.name.length = SLH_TAP_NAME_SZ)
    (hnul : 0 ∈ tap.name)
    (hmtu : tap.mtu < 65536)
    (hidx : 0 ≤ tap.ifindex ∧ tap.ifindex < 4294967296)
    (hraw : raw.length = 14 + strlen tap.name) :
    device_detail_frame tap raw =
        (0x01 :: (tap.mac ++ big_endian 2 tap.mtu ++ big_endian 4 tap.ifindex.toNat ++
            [(tap.name.takeWhile (fun c => c != 0)).length] ++
            tap.name.takeWhile (fun c => c != 0)),
          14 + (tap.name.takeWhile (fun c => c != 0)).length) ∧
      (tap.name.takeWhile (fun c => c != 0)).length < SLH_TAP_NAME_SZ ∧
      slh_agent_write_device_detail_frame tx tap raw =
        slh_agent_write_frame tx
          { type := 0x01,
            payload := tap.mac ++ big_endian 2 tap.mtu ++ big_endian 4 tap.ifindex.toNat ++
              [(tap.name.takeWhile (fun c => c != 0)).length] ++
              tap.name.takeWhile (fun c => c != 0) }
          (14 + (tap.name.takeWhile (fun c => c != 0)).length) := by
  have heq := device_detail_frame_eq tap raw hmac hname hmtu hidx hraw
  have hlt := strlen_lt_of_mem tap.name hnul
  rw [hname] at hlt
  rw [← (take_strlen tap.name).2] at heq hlt
  refine ⟨heq, hlt, ?_⟩
  unfold slh_agent_write_device_detail_frame
  simp only [heq, List.headD_cons, List.tail_cons]

/-- C16 on the example of the specification: MAC 02:00:00:00:00:01, MTU 1280,
interface index 3 and name "tap0" give the 17 payload bytes
02 00 00 00 00 01 05 00 00 00 00 03 04 74 61 70 30 after the type byte 0x01,
and the frame size 18. -/
theorem device_detail_frame_encoding_witness :
    device_detail_frame
        { name := [0x74, 0x61, 0x70, 0x30, 0, 0, 0, 0, 0, 0, 0, 0, 0, 0, 0, 0],
          mac := [0x02, 0x00, 0x00, 0x00, 0x00, 0x01], mtu := 1280, fd := 3, ifindex := 3,
          flags := 0 }
        (List.replicate 18 0xaa) =
      (0x01 :: [0x02, 0x00, 0x00, 0x00, 0x00, 0x01, 0x05, 0x00, 0x00, 0x00, 0x00, 0x03,
          0x04, 0x74, 0x61, 0x70, 0x30], 18) :=
  (device_detail_frame_encoding tx_accept_all
    { name := [0x74, 0x61, 0x70, 0x30, 0, 0, 0, 0, 0, 0, 0, 0, 0, 0, 0, 0],
      mac := [0x02, 0x00, 0x00, 0x00, 0x00, 0x01], mtu := 1280, fd := 3, ifindex := 3,
      flags := 0 }
    (List.replicate 18 0xaa) (by decide) (by decide) (by decide) (by decide) (by decide)
    (by decide)).1

/-- C17 (at most one data frame in flight): in an iteration of the session loop
in which `select` reports the network interface and `slh_agent_tap_read`
returns an Ethernet frame.  With `pending` set, nothing is written to the
control transport and the state is unchanged.  With `pending` clear, the frame
is passed to `slh_agent_write_frame` with type `FS`, the call returns, and
`pending` afterwards is set exactly when the call returned 0.  And in any
iteration that starts with `pending` set, whatever the events, every chunk
written to the control transport is the acknowledgement frame or the rejection
frame, never a data frame. -/
theorem one_data_frame_in_flight (mtu : Nat) (s : loop_state) (e : loop_event)
    (hsel : 0 < e.select_res) (htap : e.tap_ready = true) (hlen : 0 ≤ e.tap_len) :
    (s.pending = true →
      main_loop_step mtu s e =
        some { state := s, running := true, ctl_written := [], tap_written := none }) ∧
    (s.pending = false →
      ∃ res log,
        slh_agent_write_frame e.tx { type := FS, payload := e.tap_payload }
            ((e.tap_len + 1) % 65536).toNat = some (res, log) ∧
        main_loop_step mtu s e =
          some { state := { ctl := s.ctl, pending := decide (res = 0) }, running := true,
                 ctl_written := log, tap_written := none }) ∧
    (∀ (e2 : loop_event) (out : loop_outcome), s.pending = true →
      main_loop_step mtu s e2 = some out →
      ∀ chunk ∈ out.ctl_written, chunk = [STX, ACK, ETX] ∨ chunk = [STX, NAK, ETX]) := by
  have h1 : ¬ e.select_res < 0 := by omega
  have h2 : ¬ e.tap_len < 0 := by omega
  refine ⟨?_, ?_, ?_⟩
  · intro hp
    unfold main_loop_step
    simp only [h1, hsel, htap, h2, hp, if_true, if_false]
  · intro hp
    obtain ⟨res, log, hw⟩ := write_frame_returns e.tx { type := FS, payload := e.tap_payload }
      ((e.tap_len + 1) % 65536).toNat
    refine ⟨res, log, hw, ?_⟩
    unfold main_loop_step
    simp only [h1, hsel, htap, h2, hp, if_true, if_false, hw]
    by_cases hr : res = 0 <;> simp [hr]
  · intro e2 out hp hstep chunk hmem
    rcases main_loop_step_written_pending mtu s e2 out hp hstep with h | h | h
    · rw [h] at hmem; cases hmem
    · rw [h] at hmem; left; simpa using hmem
    · rw [h] at hmem; right; simpa using hmem

/-- C17 on a concrete iteration: `pending` is set, the network interface
delivers the two bytes `0x41, 0x42`; nothing is written and the state is
unchanged. -/
theorem one_data_frame_in_flight_witness :
    main_loop_step 1280
        { ctl := slh_agent_frame_init (List.replicate 16 0) 16, pending := true }
        { select_res := 1, tap_ready := true, ctl_ready := false, tap_len := 2,
          tap_payload := [0x41, 0x42], rx := .no_data, tap_write_res := 0,
          tx := tx_accept_all } =
      some { state := { ctl := slh_agent_frame_init (List.replicate 16 0) 16,
                        pending := true },
             running := true, ctl_written := [], tap_written := none } :=
  (one_data_frame_in_flight 1280
    { ctl := slh_agent_frame_init (List.replicate 16 0) 16, pending := true }
    { select_res := 1, tap_ready := true, ctl_ready := false, tap_len := 2,
      tap_payload := [0x41, 0x42], rx := .no_data, tap_write_res := 0,
      tx := tx_accept_all }
    (by decide) rfl (by decide)).1 rfl

/-- C18 (keep-alive): in an iteration of the session loop in which `select`
reports the control transport and not the network interface, and
`slh_agent_read_frame` returns a positive length with type byte 0x16, exactly
one chunk is passed to `write` on the control transport, the three bytes
0x02 0x06 0x03, and `pending` keeps its value, whichever it was and whatever
the transport does with the chunk. -/
theorem keep_alive_is_acknowledged (mtu : Nat) (s : loop_state) (e : loop_event)
    (len : Int) (ctl : slh_agent_frame_ctx) (out : List Nat)
    (hsel : 0 < e.select_res) (htap : e.tap_ready = false) (hctl : e.ctl_ready = true)
    (hread : slh_agent_read_frame s.ctl e.rx ((mtu + 1) % 65536) = some (len, ctl, out))
    (hlen : 0 < len) (htype : out.head? = some 0x16) :
    main_loop_step mtu s e =
      some { state := { ctl := ctl, pending := s.pending }, running := true,
             ctl_written := [[0x02, 0x06, 0x03]], tap_written := none } := by
  obtain ⟨ra, ha⟩ := write_frame_nopayload_chunk e.tx ACK (by decide)
  have h1 : ¬ e.select_res < 0 := by omega
  have h2 : len ≠ -EBADMSG := by
    intro h
    rw [h] at hlen
    exact absurd hlen (by decide)
  have h3 : out.headD 0 = SYN := by
    cases out with
    | nil => simp at htype
    | cons b bs =>
      simp only [List.head?_cons, Option.some.injEq] at htype
      simp [htype]
  have h4 : SYN ≠ EOT := by decide
  have h5 : SYN ≠ FS := by decide
  unfold main_loop_step
  simp only [h1, hsel, htap, hctl, hread, h2, hlen, h3, h4, h5, ha, if_true, if_false,
    gt_iff_lt, Bool.false_eq_true]

/-- C18 on a concrete iteration: `pending` is set and the frame `STX, SYN, ETX`
arrives on the control transport; the three bytes 0x02 0x06 0x03 are written
and `pending` stays set. -/
theorem keep_alive_is_acknowledged_witness :
    main_loop_step 1280
        { ctl := slh_agent_frame_init (List.replicate 16 0) 16, pending := true }
        { select_res := 1, tap_ready := false, ctl_ready := true, tap_len := 0,
          tap_payload := [], rx := .data [STX, SYN, ETX], tap_write_res := 0,
          tx := tx_accept_all } =
      some { state := { ctl := slh_agent_frame_ctx.mk
                          ([STX, SYN, ETX] ++ List.replicate 13 0) 16 3 3,
                        pending := true },
             running := true, ctl_written := [[0x02, 0x06, 0x03]], tap_written := none } :=
  keep_alive_is_acknowledged 1280
    { ctl := slh_agent_frame_init (List.replicate 16 0) 16, pending := true }
    { select_res := 1, tap_ready := false, ctl_ready := true, tap_len := 0,
      tap_payload := [], rx := .data [STX, SYN, ETX], tap_write_res := 0,
      tx := tx_accept_all }
    1 (slh_agent_frame_ctx.mk ([STX, SYN, ETX] ++ List.replicate 13 0) 16 3 3) [SYN]
    (by decide) rfl rfl (by decide!) (by decide) rfl

/-- The ingest step on 259 bytes arriving in an empty 512-byte ring buffer: a
start marker, the type `FS` and 254 zero bytes, then the complete frame
`STX, ACK, ETX`. -/
theorem fetch_two_starts :
    slh_agent_frame_buf_fetch (slh_agent_frame_init (List.replicate 512 0) 512)
        (.data (STX :: FS :: List.replicate 254 0 ++ [STX, ACK, ETX])) =
      some (slh_agent_frame_buf_waiting
          (slh_agent_frame_ctx.mk
            (STX :: FS :: List.replicate 254 0 ++ [STX, ACK, ETX] ++ List.replicate 253 0)
            512 0 259),
        slh_agent_frame_ctx.mk
          (STX :: FS :: List.replicate 254 0 ++ [STX, ACK, ETX] ++ List.replicate 253 0)
          512 0 259) ∧
    unread (slh_agent_frame_ctx.mk
        (STX :: FS :: List.replicate 254 0 ++ [STX, ACK, ETX] ++ List.replicate 253 0)
        512 0 259) =
      STX :: (FS :: List.replicate 254 0) ++ [STX, ACK, ETX] := by
  constructor <;> decide!

/-- C19 (second start marker, evaluated where it fails): a start marker, 255
ordinary bytes (the type `FS` and 254 zero bytes), then the frame
`STX, ACK, ETX` arrive in an empty 512-byte ring buffer.  With `max_sz = 300`
`slh_agent_read_frame` returns `-EBADMSG` but consumes nothing instead of 256
bytes: the read cursor stays at 0, on the first start marker, and all 259
bytes are still unread.  With two ordinary bytes before the second start
marker, in a 16-byte ring buffer, the call consumes the three bytes before it
as the claim says. -/
theorem second_start_marker_not_reached :
    slh_agent_read_frame (slh_agent_frame_init (List.replicate 512 0) 512)
        (.data (STX :: FS :: List.replicate 254 0 ++ [STX, ACK, ETX])) 300
      = some (-EBADMSG,
          slh_agent_frame_ctx.mk
            (STX :: FS :: List.replicate 254 0 ++ [STX, ACK, ETX] ++ List.replicate 253 0)
            512 0 259,
          FS :: List.replicate 254 0) ∧
    occupied (slh_agent_frame_ctx.mk
        (STX :: FS :: List.replicate 254 0 ++ [STX, ACK, ETX] ++ List.replicate 253 0)
        512 0 259) = 259 ∧
    slh_agent_read_frame (slh_agent_frame_init (List.replicate 16 0) 16)
        (.data [STX, FS, 0x41, STX, ACK, ETX]) 16
      = some (-EBADMSG,
          slh_agent_frame_ctx.mk ([STX, FS, 0x41, STX, ACK, ETX] ++ List.replicate 10 0) 16 3 6,
          [FS, 0x41]) := by
  refine ⟨?_, ?_, ?_⟩
  · exact read_frame_offset_wraps _ _ _ 300 (FS :: List.replicate 254 0) [STX, ACK, ETX]
      fetch_two_starts.1 (by unfold ring_ok; decide) fetch_two_starts.2 plain_fs_zeros
      (by simp) (by decide)
  · decide!
  · decide!

/-- The ingest step on a 512-byte ring buffer that holds the 257-byte wire frame
of type `FS` with 254 zero bytes of payload: when `read` returns no byte, and
when one more byte arrives. -/
theorem fetch_after_wire_255 :
    slh_agent_frame_buf_fetch
        (slh_agent_frame_ctx.mk
          (STX :: FS :: List.replicate 254 0 ++ [ETX] ++ List.replicate 255 0) 512 0 257)
        (.data []) =
      some (slh_agent_frame_buf_waiting
          (slh_agent_frame_ctx.mk
            (STX :: FS :: List.replicate 254 0 ++ [ETX] ++ List.replicate 255 0) 512 0 257),
        slh_agent_frame_ctx.mk
          (STX :: FS :: List.replicate 254 0 ++ [ETX] ++ List.replicate 255 0) 512 0 257) ∧
    slh_agent_frame_buf_fetch
        (slh_agent_frame_ctx.mk
          (STX :: FS :: List.replicate 254 0 ++ [ETX] ++ List.replicate 255 0) 512 0 257)
        (.data [0x41]) =
      some (slh_agent_frame_buf_waiting
          (slh_agent_frame_ctx.mk
            (STX :: FS :: List.replicate 254 0 ++ [ETX, 0x41] ++ List.replicate 254 0)
            512 0 258),
        slh_agent_frame_ctx.mk
          (STX :: FS :: List.replicate 254 0 ++ [ETX, 0x41] ++ List.replicate 254 0)
          512 0 258) ∧
    unread (slh_agent_frame_ctx.mk
        (STX :: FS :: List.replicate 254 0 ++ [ETX, 0x41] ++ List.replicate 254 0)
        512 0 258) =
      STX :: (FS :: List.replicate 254 0) ++ [ETX, 0x41] := by
  refine ⟨?_, ?_, ?_⟩ <;> decide!

/-- C20 (corruption always advances, evaluated where it fails): a 512-byte ring
buffer holds the 257-byte wire frame of type `FS` with 254 zero bytes of
payload (257 bytes occupied).  A call of `slh_agent_read_frame` during which
`read` returns no byte returns `-EBADMSG` and leaves the context exactly as it
was; a call during which one more byte arrives returns `-EBADMSG` with the
read cursor unchanged and 258 bytes occupied.  `slh_agent_drop_frame`, which
the session loop calls after `-EBADMSG`, removes nothing either. -/
theorem corrupt_without_progress :
    occupied (slh_agent_frame_ctx.mk
        (STX :: FS :: List.replicate 254 0 ++ [ETX] ++ List.replicate 255 0) 512 0 257) = 257 ∧
    slh_agent_read_frame
        (slh_agent_frame_ctx.mk
          (STX :: FS :: List.replicate 254 0 ++ [ETX] ++ List.replicate 255 0) 512 0 257)
        (.data []) 255
      = some (-EBADMSG,
          slh_agent_frame_ctx.mk
            (STX :: FS :: List.replicate 254 0 ++ [ETX] ++ List.replicate 255 0) 512 0 257,
          FS :: List.replicate 254 0) ∧
    slh_agent_read_frame
        (slh_agent_frame_ctx.mk
          (STX :: FS :: List.replicate 254 0 ++ [ETX] ++ List.replicate 255 0) 512 0 257)
        (.data [0x41]) 255
      = some (-EBADMSG,
          slh_agent_frame_ctx.mk
            (STX :: FS :: List.replicate 254 0 ++ [ETX, 0x41] ++ List.replicate 254 0)
            512 0 258,
          FS :: List.replicate 254 0) ∧
    occupied (slh_agent_frame_ctx.mk
        (STX :: FS :: List.replicate 254 0 ++ [ETX, 0x41] ++ List.replicate 254 0)
        512 0 258) = 258 ∧
    slh_agent_drop_frame
        (slh_agent_frame_ctx.mk
          (STX :: FS :: List.replicate 254 0 ++ [ETX] ++ List.replicate 255 0) 512 0 257)
      = (0, slh_agent_frame_ctx.mk
          (STX :: FS :: List.replicate 254 0 ++ [ETX] ++ List.replicate 255 0) 512 0 257) := by
  refine ⟨by decide!, ?_, ?_, by decide!, by decide!⟩
  · exact read_frame_offset_wraps _ _ _ 255 (FS :: List.replicate 254 0) [ETX]
      fetch_after_wire_255.1 (by unfold ring_ok; decide) fetch_wire_255.2 plain_fs_zeros
      (by simp) (by decide)
  · exact read_frame_offset_wraps _ _ _ 255 (FS :: List.replicate 254 0) [ETX, 0x41]
      fetch_after_wire_255.2.1 (by unfold ring_ok; decide) fetch_after_wire_255.2.2
      plain_fs_zeros (by simp) (by decide)

/-- C21 (bounded chunks): for every frame, frame size and transport,
`slh_agent_write_frame` returns, and every chunk it passed to `write` has
between 1 and 256 bytes and does not end with the first byte `0x10` of an
escape pair.  When the transport accepts every chunk the call returns 0 and the
chunks are these: the frame bytes are cut into consecutive non-empty runs, the
data chunk of a run is a start marker followed by the escaped encoding of the
run (so whole escape pairs), and the end marker is appended to the last data
chunk when that chunk has fewer than 256 bytes and is a chunk of its own
otherwise. -/
theorem write_frame_chunks_bounded (tx : Nat → List Nat → Int × Int)
    (frame : slh_agent_frame) (frame_sz : Nat) :
    ∃ res log, slh_agent_write_frame tx frame frame_sz = some (res, log) ∧
      (∀ chunk ∈ log, 1 ≤ chunk.length ∧ chunk.length ≤ 256 ∧ chunk.getLast? ≠ some 0x10) ∧
      ((∀ (i : Nat) (chunk : List Nat), (chunk.length : Int) ≤ (tx i chunk).1) →
        res = 0 ∧
        ∃ pieces : List (List Nat),
          pieces.flatten = (frame.type :: frame.payload).take frame_sz ∧
          (∀ p ∈ pieces, p ≠ []) ∧
          log = with_end_marker (pieces.map (fun p => STX :: escape_bytes p))) := by
  have hlen : ((frame.type :: frame.payload).take frame_sz).length ≤ frame_sz := by
    simp [List.length_take]
  obtain ⟨res, new, hw, hb⟩ := write_chunks_bounds tx frame_sz
    ((frame.type :: frame.payload).take frame_sz) false [] hlen
  rw [List.nil_append] at hw
  refine ⟨res, new, hw, hb, ?_⟩
  intro hacc
  obtain ⟨pieces, hflat, hne, hc⟩ := write_chunks_complete tx hacc frame_sz
    ((frame.type :: frame.payload).take frame_sz) [] hlen
  rw [List.nil_append] at hc
  rw [hc] at hw
  simp only [Option.some.injEq, Prod.mk.injEq] at hw
  exact ⟨hw.1.symm, pieces, hflat, hne, hw.2.symm⟩

/-- C21 on a concrete frame: type `FS` with 255 zero bytes of payload on the
transport that accepts everything; the properties of the chunks hold and the
result is 0. -/
theorem write_frame_chunks_bounded_witness :
    ∃ res log,
      slh_agent_write_frame tx_accept_all { type := FS, payload := List.replicate 255 0 } 256
        = some (res, log) ∧
      (∀ chunk ∈ log, 1 ≤ chunk.length ∧ chunk.length ≤ 256 ∧ chunk.getLast? ≠ some 0x10) ∧
      res = 0 ∧
      ∃ pieces : List (List Nat),
        pieces.flatten = (FS :: List.replicate 255 0).take 256 ∧
        (∀ p ∈ pieces, p ≠ []) ∧
        log = with_end_marker (pieces.map (fun p => STX :: escape_bytes p)) := by
  obtain ⟨res, log, h1, h2, h3⟩ := write_frame_chunks_bounded tx_accept_all
    { type := FS, payload := List.replicate 255 0 } 256
  exact ⟨res, log, h1, h2, h3 (fun _ _ => le_refl _)⟩

/-- C22 (cursor invariant): let the capacity be between 1 and 65535 and both
cursors below it.  Then the same holds, with the same capacity, after
`slh_agent_frame_init`, after `slh_agent_frame_buf_fetch` whenever it returns
(and it returns for every run of bytes read), after
`slh_agent_frame_buf_dequeue` for every length, after `slh_agent_read_frame`
whenever it returns (and it returns for every run of bytes read), and after
`slh_agent_drop_frame`. -/
theorem cursor_invariant (ctx : slh_agent_frame_ctx) (h : ring_ok ctx) :
    (∀ buf : List Nat, ring_ok (slh_agent_frame_init buf ctx.buffer_sz)) ∧
    (∀ (rx : rx_event) (res : Int) (ctx1 : slh_agent_frame_ctx),
      slh_agent_frame_buf_fetch ctx rx = some (res, ctx1) →
      ring_ok ctx1 ∧ ctx1.buffer_sz = ctx.buffer_sz) ∧
    (∀ bytes : List Nat, ∃ res ctx1,
      slh_agent_frame_buf_fetch ctx (.data bytes) = some (res, ctx1) ∧
      ring_ok ctx1 ∧ ctx1.buffer_sz = ctx.buffer_sz) ∧
    (∀ len : Nat, ring_ok (slh_agent_frame_buf_dequeue ctx len) ∧
      (slh_agent_frame_buf_dequeue ctx len).buffer_sz = ctx.buffer_sz) ∧
    (∀ (rx : rx_event) (max_sz : Nat) (r : Int × slh_agent_frame_ctx × List Nat),
      slh_agent_read_frame ctx rx max_sz = some r →
      ring_ok r.2.1 ∧ r.2.1.buffer_sz = ctx.buffer_sz) ∧
    (∀ (bytes : List Nat) (max_sz : Nat), ∃ r,
      slh_agent_read_frame ctx (.data bytes) max_sz = some r ∧
      ring_ok r.2.1 ∧ r.2.1.buffer_sz = ctx.buffer_sz) ∧
    (ring_ok (slh_agent_drop_frame ctx).2 ∧
      (slh_agent_drop_frame ctx).2.buffer_sz = ctx.buffer_sz) := by
  refine ⟨fun buf => ring_ok_init buf _ h.1 h.2.1, fetch_ring_ok ctx h, ?_,
    fun len => ⟨ring_ok_dequeue ctx h len, rfl⟩, read_frame_ring_ok ctx h, ?_,
    drop_frame_loop_ring_ok ctx h _ _⟩
  · intro bytes
    obtain ⟨res, ctx1, hf⟩ := fetch_data_returns ctx h bytes
    exact ⟨res, ctx1, hf, fetch_ring_ok ctx h _ res ctx1 hf⟩
  · intro bytes max_sz
    obtain ⟨r, hr⟩ := read_frame_data_returns ctx h bytes max_sz
    exact ⟨r, hr, read_frame_ring_ok ctx h _ max_sz r hr⟩

/-- C22 on a concrete state: an 8-byte ring buffer with read cursor 6 and write
cursor 3; after ingesting 7 bytes, which is more than the free space, the
cursors are still below 8. -/
theorem cursor_invariant_witness :
    ring_ok (slh_agent_frame_ctx.mk [ETX, STX, 0x43, 0, 0, 0, 0x41, 0x42] 8 6 3) ∧
    ∃ res ctx1,
      slh_agent_frame_buf_fetch
          (slh_agent_frame_ctx.mk [ETX, STX, 0x43, 0, 0, 0, 0x41, 0x42] 8 6 3)
          (.data [1, 2, 3, 4, 5, 6, 7]) = some (res, ctx1) ∧
      ring_ok ctx1 ∧ ctx1.buffer_sz = 8 :=
  ⟨by unfold ring_ok; decide,
   (cursor_invariant (slh_agent_frame_ctx.mk [ETX, STX, 0x43, 0, 0, 0, 0x41, 0x42] 8 6 3)
      (by unfold ring_ok; decide)).2.2.1 [1, 2, 3, 4, 5, 6, 7]⟩

/-- C23 (initial flow state, evaluated where it fails): `pending` has no
initialiser in `main`.  When the indeterminate value it holds on entry to the
loop is `true`, the first Ethernet frame read from the network interface is
discarded, whatever its content: nothing is written to the control transport
and the state is unchanged.  Only when the value happens to be `false` is the
frame `0x41` written as the data frame `STX, FS, 0x41, ETX`. -/
theorem first_frame_dropped_when_pending_starts_set :
    (∀ (buf : List Nat) (mtu : Nat) (payload : List Nat) (tx : Nat → List Nat → Int × Int),
      main_loop_step mtu (main_loop_entry buf true)
          { select_res := 1, tap_ready := true, ctl_ready := false,
            tap_len := (payload.length : Int), tap_payload := payload, rx := .no_data,
            tap_write_res := 0, tx := tx } =
        some { state := main_loop_entry buf true, running := true, ctl_written := [],
               tap_written := none }) ∧
    (∀ (buf : List Nat) (mtu : Nat),
      main_loop_step mtu (main_loop_entry buf false)
          { select_res := 1, tap_ready := true, ctl_ready := false,
            tap_len := 1, tap_payload := [0x41], rx := .no_data,
            tap_write_res := 0, tx := tx_accept_all } =
        some { state := { ctl := slh_agent_frame_init buf 4096, pending := true },
               running := true, ctl_written := [[STX, FS, 0x41, ETX]],
               tap_written := none }) := by
  constructor
  · intro buf mtu payload tx
    have h : ¬ ((payload.length : Int) < 0) := by omega
    unfold main_loop_step
    simp [main_loop_entry, h]
  · intro buf mtu
    have hw : slh_agent_write_frame tx_accept_all { type := FS, payload := [0x41] }
        (((1 : Int) + 1) % 65536).toNat = some (0, [[STX, FS, 0x41, ETX]]) := by decide!
    unfold main_loop_step
    simp only [main_loop_entry, hw]
    simp

/-- C24 (would-block on read, shown to fail): when `read` returns -1 with
`EAGAIN` the copy loop of `slh_agent_frame_buf_fetch` starts with `sz = -1`.  Its
first iteration sets `len` to 65535, moves the write cursor by 65535 modulo
the capacity and leaves `sz = -65536`; from then on every iteration copies 0
bytes, so for every number of iterations the loop is still running and the
function does not return: not on the empty 16-byte ring buffer, and not on one
that holds the frame `STX, ACK, ETX`. -/
theorem would_block_does_not_return :
    (∀ (fuel : Nat) (ctx : slh_agent_frame_ctx), fetch_copy fuel ctx [] (-1) = none) ∧
    (∀ (fuel : Nat) (ctx : slh_agent_frame_ctx),
      fetch_copy (fuel + 1) ctx [] (-1) =
        fetch_copy fuel
          { ctx with
            buffer := memcpy ctx.buffer ctx.write_ptr []
            write_ptr := (ctx.write_ptr + 65535) % ctx.buffer_sz }
          [] (-65536)) ∧
    (∀ (fuel : Nat) (ctx : slh_agent_frame_ctx) (ptr : List Nat),
      fetch_copy fuel ctx ptr (-65536) = none) ∧
    slh_agent_frame_buf_fetch (slh_agent_frame_init (List.replicate 16 0) 16)
        (.read_error EAGAIN) = none ∧
    slh_agent_frame_buf_fetch
        (slh_agent_frame_ctx.mk ([STX, ACK, ETX] ++ List.replicate 13 0) 16 0 3)
        (.read_error EWOULDBLOCK) = none :=
  ⟨fetch_copy_would_block, fetch_copy_first_step,
    fetch_copy_spins (-65536) (by decide) (by decide),
    fetch_would_block _ _ (Or.inl rfl) (by decide),
    fetch_would_block _ _ (Or.inr rfl) (by decide)⟩

/-- C25 (round trip for short frames): for every type byte and payload whose
wire encoding has at most 255 bytes.  On a transport that accepts the
encoding, `slh_agent_write_frame` passes exactly one chunk to `write`, the
encoding, and returns 0.  When those bytes arrive in an empty ring buffer (read
cursor equal to write cursor, anywhere in the storage) whose capacity is
greater than their number, `slh_agent_read_frame` with `max_sz` at least
1 + payload length returns 1 + payload length, stores exactly the type and the
payload, and leaves the buffer empty. -/
theorem short_frame_round_trip (tx : Nat → List Nat → Int × Int)
    (ctx : slh_agent_frame_ctx) (type : Nat) (payload : List Nat) (max_sz : Nat)
    (hwire : (wire_frame type payload).length ≤ 255)
    (hacc : ((wire_frame type payload).length : Int) ≤ (tx 0 (wire_frame type payload)).1)
    (hok : ring_ok ctx) (hbuf : ctx.buffer.length = ctx.buffer_sz)
    (hempty : ctx.read_ptr = ctx.write_ptr)
    (hcap : (wire_frame type payload).length < ctx.buffer_sz)
    (hmax : 1 + payload.length ≤ max_sz) :
    slh_agent_write_frame tx { type := type, payload := payload } (1 + payload.length) =
        some (0, [wire_frame type payload]) ∧
      ∃ ctx2, slh_agent_read_frame ctx (.data (wire_frame type payload)) max_sz =
          some (((1 + payload.length : Nat) : Int), ctx2, type :: payload) ∧
        occupied ctx2 = 0 ∧ ctx2.read_ptr = ctx2.write_ptr := by
  refine ⟨write_frame_single_chunk tx type payload hwire hacc, ?_⟩
  obtain ⟨hrem, hocc⟩ := fetch_buf_rem_empty ctx hok hempty
  obtain ⟨ctx1, hfetch, hok1, _, _, _, _, hun1⟩ := fetch_data_appends ctx
    (wire_frame type payload) hok hbuf (by rw [hrem]; exact Nat.pos_iff_ne_zero.mp hok.1)
    (by rw [hrem]; exact Nat.le_of_lt hcap) (by rw [hocc]; simpa using hcap)
  have hun0 : unread ctx = [] := List.length_eq_zero.mp (by rw [length_unread, hocc])
  rw [hun0, List.nil_append] at hun1
  obtain ⟨ctx2, hread, hrest, _, _, _⟩ := read_frame_garbage_then_frame ctx ctx1
    (.data (wire_frame type payload)) max_sz [] type payload [] hfetch hok1
    (by rw [hun1]; simp) (by simp) (by simp) hwire hmax
  have hocc2 : occupied ctx2 = 0 := by
    rw [← length_unread, hrest]; rfl
  have hok2 : ring_ok ctx2 := (read_frame_ring_ok ctx hok _ max_sz _ hread).1
  refine ⟨ctx2, hread, hocc2, ?_⟩
  obtain ⟨h0, h1, hr, hw⟩ := hok2
  revert hocc2
  unfold occupied slh_agent_frame_buf_waiting
  split <;> intro hocc2 <;> omega

/-- C25 on a concrete frame: type `FS` with payload `0x02, 0x41, 0x10`, whose
wire encoding `02 1c 10 62 41 10 70 03` arrives in an empty 16-byte ring
buffer with both cursors at 12, so that it wraps around the end of storage. -/
theorem short_frame_round_trip_witness :
    slh_agent_write_frame tx_accept_all { type := FS, payload := [0x02, 0x41, 0x10] }
        (1 + [0x02, 0x41, 0x10].length) =
      some (0, [wire_frame FS [0x02, 0x41, 0x10]]) ∧
    wire_frame FS [0x02, 0x41, 0x10] = [0x02, 0x1c, 0x10, 0x62, 0x41, 0x10, 0x70, 0x03] ∧
    ∃ ctx2, slh_agent_read_frame (slh_agent_frame_ctx.mk (List.replicate 16 0) 16 12 12)
        (.data (wire_frame FS [0x02, 0x41, 0x10])) 4 =
        some (((1 + [0x02, 0x41, 0x10].length : Nat) : Int), ctx2, FS :: [0x02, 0x41, 0x10]) ∧
      occupied ctx2 = 0 ∧ ctx2.read_ptr = ctx2.write_ptr :=
  ⟨(short_frame_round_trip tx_accept_all
      (slh_agent_frame_ctx.mk (List.replicate 16 0) 16 12 12) FS [0x02, 0x41, 0x10] 4
      (by decide) (by decide) (by unfold ring_ok; decide) (by decide) (by decide)
      (by decide) (by decide)).1,
   by decide,
   (short_frame_round_trip tx_accept_all
      (slh_agent_frame_ctx.mk (List.replicate 16 0) 16 12 12) FS [0x02, 0x41, 0x10] 4
      (by decide) (by decide) (by unfold ring_ok; decide) (by decide) (by decide)
      (by decide) (by decide)).2⟩

end SlhAgent
